import Mathlib

/-!
Verification of the ecstream streaming erasure-coding library.

The development shallowly embeds the JavaScript sources:
* `lib/dencode_context.js` (stripe geometry `safeStripeSize`, the shared
  `DencodeContext` operation state with its `error` / `ref` / `unref` /
  `wait` / `addedToStripe` / `readyForEncoding` transitions),
* `lib/decode.js` (role selection `getPartRoles`, the buffer-filling step
  `decodeBufferStep`, the dispatch step `decodeDispatchStep`, entry `decode`),
* `lib/repair.js` (repair role selection and entry),
* `lib/encode.js` (the encode buffer step and data path).

Bytes are `Nat`s, buffers and streams are `List Nat`, JavaScript 32-bit
bitfields are `Nat`s combined with `<<<`, `|||`, `&&&` (all bitfield values
involved stay far below `2 ^ 32`).  The Galois-field coding primitive
(`@ronomon/reed-solomon`, an external black box for this library) appears as
a function parameter: encode passes the stripe data buffer through it to
obtain the parity buffer; decode bypasses it entirely when `targets == 0`,
exactly as the source does.  The event-driven drivers are embedded as a state
machine whose steps return the updated context together with the list of
observable actions (stream events emitted and primitive submissions).
-/

namespace Ecstream

/-! ## Definitions: stripe geometry (`lib/dencode_context.js`) -/

/-- Maximum channel buffering ceiling, `MAX_HWM` in `lib/dencode_context.js`. -/
def MAX_HWM : Nat := 0x800000

/-- Stripe geometry, `safeStripeSize` of `lib/dencode_context.js`:
round the hint up to a multiple of 8, cap by the largest 8-aligned size whose
`max(k,m)` multiple stays below `MAX_HWM`. -/
def safeStripeSize (k m hint : Nat) : Nat :=
  let alignedHint := ((hint + 7) / 8) * 8
  let largest := max k m
  let maximum := MAX_HWM / largest
  let maximumAligned := (maximum / 8) * 8
  min alignedHint maximumAligned

/-- Number of stripes, `Math.ceil(size / (k * stripeSize))` in the
`DencodeContext` constructor. -/
def nStripe (size k S : Nat) : Nat := (size + k * S - 1) / (k * S)

/-! ## Definitions: role bitfields

`getPartRoles` of `lib/decode.js` scans the data lanes first (absent data
lanes become targets), then the parity lanes; `getPartRoles` of
`lib/repair.js` scans all lanes for the first `k` present sources and makes
every requested output a target.  `lib/encode.js` fixes
`sources = (1 << k) - 1` and `targets = ((1 << m) - 1) << k`. -/

/-- Result of role selection (`sources`/`targets` bitfields and the count of
available input lanes). -/
structure Roles where
  sources : Nat
  targets : Nat
  available : Nat
deriving Repr, DecidableEq

/-- Data-lane scan of `getPartRoles` in `lib/decode.js`: present lanes become
sources until `k` sources are found, absent lanes before that become
targets. -/
def decodeDataLoop (k : Nat) : List Bool → Nat → Roles → Roles
  | [], _, r => r
  | present :: rest, i, r =>
    if present then
      if r.available + 1 = k then
        { r with sources := r.sources ||| (1 <<< i), available := r.available + 1 }
      else
        decodeDataLoop k rest (i + 1)
          { r with sources := r.sources ||| (1 <<< i), available := r.available + 1 }
    else
      decodeDataLoop k rest (i + 1) { r with targets := r.targets ||| (1 <<< i) }

/-- Parity-lane scan of `getPartRoles` in `lib/decode.js` (entered only when
fewer than `k` data lanes are present): present parity lanes are added as
sources until `k` sources in total. -/
def decodeParityLoop (k : Nat) : List Bool → Nat → Roles → Roles
  | [], _, r => r
  | present :: rest, i, r =>
    if present then
      if r.available + 1 = k then
        { r with sources := r.sources ||| (1 <<< i), available := r.available + 1 }
      else
        decodeParityLoop k rest (i + 1)
          { r with sources := r.sources ||| (1 <<< i), available := r.available + 1 }
    else decodeParityLoop k rest (i + 1) r

/-- Role selection of `lib/decode.js` (`getPartRoles`). -/
def getPartRoles (dataStreams parityStreams : List Bool) : Roles :=
  let k := dataStreams.length
  let r := decodeDataLoop k dataStreams 0 ⟨0, 0, 0⟩
  if r.available < k then decodeParityLoop k parityStreams k r else r

/-- Source scan of `getPartRoles` in `lib/repair.js`: the first `k` present
lanes (data or parity, by raw index) become sources. -/
def repairSourcesLoop (k : Nat) : List Bool → Nat → Nat → Nat → Nat × Nat
  | [], _, sources, available => (sources, available)
  | present :: rest, i, sources, available =>
    if present then
      if available = k then (sources, available)
      else repairSourcesLoop k rest (i + 1) (sources ||| (1 <<< i)) (available + 1)
    else repairSourcesLoop k rest (i + 1) sources available

/-- Target scan of `getPartRoles` in `lib/repair.js`: every lane with a
requested output becomes a target. -/
def repairTargetsLoop : List Bool → Nat → Nat → Nat
  | [], _, targets => targets
  | present :: rest, i, targets =>
    repairTargetsLoop rest (i + 1) (if present then targets ||| (1 <<< i) else targets)

/-- Role selection of `lib/repair.js` (`getPartRoles`). -/
def repairGetPartRoles (k : Nat) (istreams ostreams : List Bool) : Roles :=
  let p := repairSourcesLoop k istreams 0 0 0
  { sources := p.1, targets := repairTargetsLoop ostreams 0 0, available := p.2 }

/-- Encode sources bitfield, `(1 << k) - 1` in `lib/encode.js`. -/
def encodeSources (k : Nat) : Nat := (1 <<< k) - 1

/-- Encode targets bitfield, `((1 << m) - 1) << k` in `lib/encode.js`. -/
def encodeTargets (k m : Nat) : Nat := ((1 <<< m) - 1) <<< k

/-- Population count of a natural number (number of set bits); the spec
states the role invariant through it. -/
def popcount : Nat → Nat
  | 0 => 0
  | n + 1 => (n + 1) % 2 + popcount ((n + 1) / 2)
decreasing_by exact Nat.div_lt_self (Nat.succ_pos n) Nat.one_lt_two

/-! ## Definitions: operation entry (`decode` of `lib/decode.js`, `repair` of
`lib/repair.js`)

Both entries compute the roles, and when fewer than `k` lanes are available
they store the insufficient-shards error and return at once: no `readable`
handler is attached to any lane and no present lane is force-drained, so no
read is ever attempted. -/

/-- Message of the insufficient-shards error built by `decode`/`repair`. -/
def insufficientMsg (available k : Nat) : String :=
  s!"Not enough parts for decoding: {available} < {k}"

/-- Observable result of running an operation entry: the computed roles, the
terminal error field, the lanes a `readable` handler was attached to (the
only place reads happen), and the present non-source lanes force-resumed. -/
structure OpInit where
  roles : Roles
  inputError : Option String
  readHandlers : List Nat
  drained : List Nat
deriving Repr, DecidableEq

/-- Entry of `decode` in `lib/decode.js`, restricted to its observable
set-up effects. -/
def decodeInit (dataStreams parityStreams : List Bool) : OpInit :=
  let k := dataStreams.length
  let r := getPartRoles dataStreams parityStreams
  if r.available < k then
    { roles := r, inputError := some (insufficientMsg r.available k),
      readHandlers := [], drained := [] }
  else
    let istreams := dataStreams ++ parityStreams
    { roles := r, inputError := none
      readHandlers := (List.range istreams.length).filter
        (fun i => decide (r.sources &&& (1 <<< i) ≠ 0))
      drained := (List.range istreams.length).filter
        (fun i => decide (r.sources &&& (1 <<< i) = 0) && istreams.getD i false) }

/-- Entry of `repair` in `lib/repair.js`, restricted to its observable
set-up effects. -/
def repairInit (k : Nat) (istreams ostreams : List Bool) : OpInit :=
  let r := repairGetPartRoles k istreams ostreams
  if r.available < k then
    { roles := r, inputError := some (insufficientMsg r.available k),
      readHandlers := [], drained := [] }
  else
    { roles := r, inputError := none
      readHandlers := (List.range istreams.length).filter
        (fun i => decide (r.sources &&& (1 <<< i) ≠ 0))
      drained := (List.range istreams.length).filter
        (fun i => decide (r.sources &&& (1 <<< i) = 0) && istreams.getD i false) }

/-! ## Definitions: pure data path of encode and decode

`encodeBufferStep` reads `k*S` bytes per stripe (the exact remainder on the
final stripe), zero-pads a short final read, submits the stripe, and
`encodeDispatchStep` writes slice `i` of the data buffer to data lane `i` and
slice `j` of the parity buffer to parity lane `j`.  `decode` reads `S` bytes
per stripe from every source lane into the stripe buffers, bypasses the
primitive when `targets == 0`, and pushes the data buffer truncated to the
remaining object size on the final stripe. -/

/-- Stripe data buffer assembled by `encodeBufferStep` of `lib/encode.js`
for stripe `t`: the exact bytes read from the input (full `k*S`, or the
remainder `size - t*k*S` on the final stripe), zero-padded to `k*S`. -/
def encodeStripeData (X : List Nat) (k S N t : Nat) : List Nat :=
  let toRead := if t + 1 = N then X.length - t * (k * S) else k * S
  let dataBytes := (X.drop (t * (k * S))).take toRead
  if dataBytes.length < k * S then
    dataBytes ++ List.replicate (k * S - dataBytes.length) 0
  else dataBytes

/-- Bytes written by encode onto output lane `i` (data lanes `i < k`, parity
lanes `k ≤ i < k+m`), per `encodeDispatchStep` of `lib/encode.js`: slice `i`
of each stripe's data buffer, or slice `i-k` of its parity buffer, in stripe
order.  `gf` is the black-box Reed-Solomon primitive producing a stripe's
parity buffer from its data buffer (it writes only the target parity slices,
the data buffer is untouched). -/
def encodeLane (gf : List Nat → List Nat) (X : List Nat) (k S : Nat)
    (i : Nat) : List Nat :=
  let N := nStripe X.length k S
  ((List.range N).map (fun t =>
    let dataBuffer := encodeStripeData X k S N t
    if i < k then (dataBuffer.drop (i * S)).take S
    else ((gf dataBuffer).drop ((i - k) * S)).take S)).flatten

/-- All `k + m` streams produced by `encode` of `lib/encode.js` for input
`X` (the stripe size is computed by the `DencodeContext` constructor from
the hint). -/
def ecEncode (gf : List Nat → List Nat) (X : List Nat) (k m hint : Nat) :
    List (List Nat) :=
  let S := safeStripeSize k m hint
  (List.range (k + m)).map (encodeLane gf X k S)

/-- Stripe data buffer assembled by `fillStripeBuffers` of `lib/decode.js`
for stripe `t`: each source data lane contributes its next `S` bytes at
offset `i*S`; slices of non-source lanes are uninitialized (`allocUnsafe`),
modeled as zeros, and are overwritten by the primitive before use. -/
def decodeStripeDataBuffer (sources : Nat) (istreams : List (Option (List Nat)))
    (k S t : Nat) : List Nat :=
  ((List.range k).map (fun i =>
    if sources &&& (1 <<< i) ≠ 0 then
      (((istreams.getD i none).getD []).drop (t * S)).take S
    else List.replicate S 0)).flatten

/-- Stripe parity buffer assembled by `fillStripeBuffers` of `lib/decode.js`
for stripe `t` (source parity lane `k + j` fills offset `j*S`). -/
def decodeStripeParityBuffer (sources : Nat) (istreams : List (Option (List Nat)))
    (k m S t : Nat) : List Nat :=
  ((List.range m).map (fun j =>
    if sources &&& (1 <<< (k + j)) ≠ 0 then
      (((istreams.getD (k + j) none).getD []).drop (t * S)).take S
    else List.replicate S 0)).flatten

/-- Bytes pushed to the single decode output for one stripe, per
`decodeDispatchStep` of `lib/decode.js`: the whole data buffer, truncated on
the final stripe to `size - processedStripe * stripeSize * k`. -/
def decodeStripePush (size k S N t : Nat) (dataBuffer : List Nat) : List Nat :=
  if t + 1 = N then dataBuffer.take (size - t * S * k) else dataBuffer

/-- Full byte stream written by `decode` of `lib/decode.js` to its single
output.  `gfRec` is the black-box reconstruction primitive (given the roles
and both stripe buffers it returns the completed data buffer); it is bypassed
when `targets == 0`, exactly as `DencodeContext.encode` does. -/
def ecDecode (gfRec : Nat → Nat → List Nat → List Nat → List Nat)
    (size : Nat) (dataStreams parityStreams : List (Option (List Nat)))
    (hint : Nat) : Except String (List Nat) :=
  let k := dataStreams.length
  let m := parityStreams.length
  let S := safeStripeSize k m hint
  let r := getPartRoles (dataStreams.map Option.isSome)
    (parityStreams.map Option.isSome)
  if r.available < k then Except.error (insufficientMsg r.available k)
  else
    let istreams := dataStreams ++ parityStreams
    let N := nStripe size k S
    Except.ok (((List.range N).map (fun t =>
      let dataBuffer := decodeStripeDataBuffer r.sources istreams k S t
      let parityBuffer := decodeStripeParityBuffer r.sources istreams k m S t
      let decoded := if r.targets = 0 then dataBuffer
        else gfRec r.sources r.targets dataBuffer parityBuffer
      decodeStripePush size k S N t decoded)).flatten)

/-! ## Definitions: the shared operation context as a state machine

The `DencodeContext` of `lib/dencode_context.js` plus the decode/repair
driver callbacks of `lib/decode.js`, as a small-step machine.  A step
consumes one external event (a lane readiness signal, an upstream stream
error, or a primitive/write completion) and returns the updated context and
the list of observable actions: events emitted on live output streams
(`error`, `end`, data writes), `readable` wakes emitted on live input
streams, and submissions to the coding primitive. -/

/-- Observable action performed by a context transition. -/
inductive Act where
  | errorEvt (lane err : Nat)
  | endEvt (lane : Nat)
  | wake (lane : Nat)
  | push (lane len : Nat)
  | submit
deriving Repr, DecidableEq

/-- State of a `DencodeContext` (`lib/dencode_context.js`), together with
the remaining readable bytes of each input lane.  `liveIn`/`liveOut` are the
indices of the non-absent input/output streams (`filteredIstreams` /
`filteredOstreams`). -/
structure Ctx where
  k : Nat
  m : Nat
  S : Nat
  size : Nat
  sources : Nat
  targets : Nat
  nStripe : Nat
  processedStripe : Nat
  inFlight : Bool
  waiting : Nat
  inputError : Option Nat
  lanes : List (List Nat)
  liveIn : List Nat
  liveOut : List Nat
deriving Repr, DecidableEq

/-- `DencodeContext.error`: first caller wins; the first call records the
error and emits one `error` event on every live output stream, later calls
do nothing. -/
def Ctx.error (c : Ctx) (err : Nat) : Ctx × List Act :=
  match c.inputError with
  | some _ => (c, [])
  | none =>
    ({ c with inputError := some err },
     c.liveOut.map (fun l => Act.errorEvt l err))

/-- `DencodeContext.unref`: clear the in-flight flag, count the stripe; when
all stripes are processed emit `end` on every live output, otherwise reset
the stripe (fresh buffers, `waiting := sources`) and wake every live input. -/
def Ctx.unref (c : Ctx) : Ctx × List Act :=
  let c1 := { c with inFlight := false, processedStripe := c.processedStripe + 1 }
  if c1.processedStripe = c1.nStripe then
    (c1, c1.liveOut.map Act.endEvt)
  else
    ({ c1 with waiting := c1.sources }, c1.liveIn.map Act.wake)

/-- `DencodeContext.wait`: a stripe is in flight, pause reading. -/
def Ctx.wait (c : Ctx) : Bool := c.inFlight

/-- `DencodeContext.addedToStripe`: clear the given lanes in `waiting`
(JavaScript `waiting &= ~mask` on 32-bit integers). -/
def Ctx.addedToStripe (c : Ctx) (mask : Nat) : Ctx :=
  { c with waiting := c.waiting &&& (0xFFFFFFFF ^^^ mask) }

/-- `DencodeContext.readyForEncoding`: all source lanes filled. -/
def Ctx.readyForEncoding (c : Ctx) : Bool := c.waiting = 0

/-- `fillStripeBuffers` of `lib/decode.js`: read exactly `S` bytes from lane
`i` into the stripe buffer; fails (stream returns `null`) when fewer than
`S` bytes are buffered. -/
def fillStripeBuffers (c : Ctx) (i : Nat) : Option Ctx :=
  let lane := c.lanes.getD i []
  if c.S ≤ lane.length then
    some { c with lanes := c.lanes.set i (lane.drop c.S) }
  else none

/-- `decodeBufferStep` of `lib/decode.js` (the buffer-filling step shared by
decode and repair), including the `ref` call (`inFlight := true`, asserting
`waiting == 0`) and the submission to the primitive when the stripe became
complete. -/
def decodeBufferStep (c : Ctx) (i : Nat) : Ctx × List Act :=
  if c.wait then (c, [])
  else if c.waiting &&& (1 <<< i) = 0 then (c, [])
  else
    match fillStripeBuffers c i with
    | none => (c, [])
    | some c1 =>
      let c2 := c1.addedToStripe (1 <<< i)
      if c2.readyForEncoding then ({ c2 with inFlight := true }, [Act.submit])
      else (c2, [])

/-- `decodeDispatchStep` of `lib/decode.js`: on a primitive error, forward it
to the context (`error`) and `unref`; on success, write the (truncated on
the last stripe) data buffer to every live output, then `unref` once all
writes completed. -/
def decodeDispatchStep (c : Ctx) (err : Option Nat) : Ctx × List Act :=
  match err with
  | some e =>
    let p1 := c.error e
    let p2 := p1.1.unref
    (p2.1, p1.2 ++ p2.2)
  | none =>
    let leftover := c.size - c.processedStripe * c.S * c.k
    let len := if c.processedStripe + 1 = c.nStripe
      then min (c.k * c.S) leftover else c.k * c.S
    let pushes := c.liveOut.map (fun l => Act.push l len)
    let p := c.unref
    (p.1, pushes ++ p.2)

/-- Bytes `encodeBufferStep` of `lib/encode.js` asks its single input for:
the whole stripe `k*S`, or the exact remainder on the final stripe. -/
def encodeToRead (c : Ctx) : Nat :=
  if c.processedStripe + 1 = c.nStripe
  then c.size - c.processedStripe * (c.k * c.S) else c.k * c.S

/-- Result of `read(toRead)` on the encode input: the requested count when
that many bytes are buffered, the remainder once the stream has ended
(`read` returns fewer bytes than asked only at end of stream), `null`
otherwise. -/
def encodeRead (c : Ctx) (ended : Bool) : Option Nat :=
  if encodeToRead c ≤ (c.lanes.getD 0 []).length then some (encodeToRead c)
  else if ended && decide (0 < (c.lanes.getD 0 []).length) then
    some (c.lanes.getD 0 []).length
  else none

/-- `encodeBufferStep` of `lib/encode.js`: read a whole stripe, fill the
data buffer (zero-padding a short final read), mark all source lanes filled
(`addedToStripe(sources)`), `ref` and submit. -/
def encodeBufferStep (c : Ctx) (ended : Bool) : Ctx × List Act :=
  if c.wait then (c, [])
  else
    match encodeRead c ended with
    | none => (c, [])
    | some n =>
      ({ ({ c with
            lanes := c.lanes.set 0 ((c.lanes.getD 0 []).drop n) }).addedToStripe
          c.sources with inFlight := true }, [Act.submit])

/-- `repairDispatchStep` of `lib/repair.js`: on a primitive error, forward
it to the context (`error`) and `unref`; on success, write the stripe slice
of every target lane to its output stream, then `unref` once all writes
completed. -/
def repairDispatchStep (c : Ctx) (err : Option Nat) : Ctx × List Act :=
  match err with
  | some e =>
    let p1 := c.error e
    let p2 := p1.1.unref
    (p2.1, p1.2 ++ p2.2)
  | none =>
    let pushes := ((List.range (c.k + c.m)).filter
      (fun i => decide (c.targets &&& (1 <<< i) ≠ 0))).map
      (fun i => Act.push i c.S)
    let p := c.unref
    (p.1, pushes ++ p.2)

/-- External events driving an operation: a readiness signal on a
decode/repair input lane `i`, a readiness or end signal on the single encode
input, an error on an upstream input stream, or the completion of the
submitted stripe (primitive plus writes) of the decode or repair pipeline,
possibly failed. -/
inductive Ev where
  | readable (i : Nat)
  | encodeReadable (ended : Bool)
  | upstreamErr (e : Nat)
  | done (err : Option Nat)
  | repairDone (err : Option Nat)
deriving Repr, DecidableEq

/-- One event dispatch of the drivers. -/
def step (c : Ctx) (e : Ev) : Ctx × List Act :=
  match e with
  | Ev.readable i => decodeBufferStep c i
  | Ev.encodeReadable ended => encodeBufferStep c ended
  | Ev.upstreamErr err => c.error err
  | Ev.done err => decodeDispatchStep c err
  | Ev.repairDone err => repairDispatchStep c err

/-- Run the driver over a sequence of events, collecting all actions. -/
def run (c : Ctx) : List Ev → Ctx × List Act
  | [] => (c, [])
  | e :: rest =>
    let p := step c e
    let q := run p.1 rest
    (q.1, p.2 ++ q.2)

/-- Initial context built by `decode` of `lib/decode.js` (roles from
`getPartRoles`, stripe count and geometry from the `DencodeContext`
constructor, single output stream). -/
def mkDecodeCtx (dataStreams parityStreams : List (Option (List Nat)))
    (size hint : Nat) : Ctx :=
  let k := dataStreams.length
  let m := parityStreams.length
  let S := safeStripeSize k m hint
  let r := getPartRoles (dataStreams.map Option.isSome)
    (parityStreams.map Option.isSome)
  let istreams := dataStreams ++ parityStreams
  { k := k, m := m, S := S, size := size
    sources := r.sources, targets := r.targets
    nStripe := nStripe size k S
    processedStripe := 0
    inFlight := false
    waiting := r.sources
    inputError := none
    lanes := istreams.map (fun s => s.getD [])
    liveIn := (List.range istreams.length).filter
      (fun i => (istreams.getD i none).isSome)
    liveOut := [0] }

/-- Initial context built by `encode` of `lib/encode.js`: a single input
stream, all `k + m` outputs present, `sources = (1 << k) - 1`,
`targets = ((1 << m) - 1) << k`, geometry and stripe count from the
`DencodeContext` constructor. -/
def mkEncodeCtx (instream : List Nat) (k m size hint : Nat) : Ctx :=
  { k := k, m := m, S := safeStripeSize k m hint, size := size
    sources := encodeSources k, targets := encodeTargets k m
    nStripe := nStripe size k (safeStripeSize k m hint)
    processedStripe := 0
    inFlight := false
    waiting := encodeSources k
    inputError := none
    lanes := [instream]
    liveIn := [0]
    liveOut := List.range (k + m) }

/-- Initial context built by `repair` of `lib/repair.js` (roles from its
`getPartRoles`, arbitrary present subsets of inputs and outputs). -/
def mkRepairCtx (k m : Nat) (istreams ostreams : List (Option (List Nat)))
    (size hint : Nat) : Ctx :=
  let r := repairGetPartRoles k (istreams.map Option.isSome)
    (ostreams.map Option.isSome)
  { k := k, m := m, S := safeStripeSize k m hint, size := size
    sources := r.sources, targets := r.targets
    nStripe := nStripe size k (safeStripeSize k m hint)
    processedStripe := 0
    inFlight := false
    waiting := r.sources
    inputError := none
    lanes := istreams.map (fun s => s.getD [])
    liveIn := (List.range istreams.length).filter
      (fun i => (istreams.getD i none).isSome)
    liveOut := (List.range ostreams.length).filter
      (fun i => (ostreams.getD i none).isSome) }

/-- Sample operation context (a decode with k = 2, m = 1, stripe size 8,
object size 32, both data lanes sources, used to instantiate theorems). -/
def sampleCtx : Ctx :=
  { k := 2, m := 1, S := 8, size := 32, sources := 3, targets := 0,
    nStripe := 2, processedStripe := 0, inFlight := false, waiting := 3,
    inputError := none,
    lanes := [List.replicate 16 1, List.replicate 16 2, []],
    liveIn := [0, 1], liveOut := [0] }

/-- The sample context after an error has been signaled while a stripe was
in flight. -/
def erroredCtx : Ctx :=
  { sampleCtx with inputError := some 5, inFlight := true, waiting := 0 }

/-! ## Theorems -/

-- Basic facts about the ceiling division used by `nStripe`.

theorem ceilDiv_eq_zero {c : Nat} (hc : 0 < c) : (0 + c - 1) / c = 0 := by
  apply Nat.div_eq_of_lt
  omega

theorem le_ceilDiv_mul {a c : Nat} (hc : 0 < c) : a ≤ ((a + c - 1) / c) * c := by
  have hdm := Nat.div_add_mod (a + c - 1) c
  have hr : (a + c - 1) % c < c := Nat.mod_lt _ hc
  have hcomm : c * ((a + c - 1) / c) = ((a + c - 1) / c) * c := Nat.mul_comm _ _
  omega

theorem ceilDiv_pred_mul_lt {a c : Nat} (hc : 0 < c) (ha : 0 < a) :
    ((a + c - 1) / c - 1) * c < a := by
  have hN : 0 < (a + c - 1) / c := by
    apply Nat.div_pos <;> omega
  have hdm := Nat.div_add_mod (a + c - 1) c
  have hr : (a + c - 1) % c < c := Nat.mod_lt _ hc
  have hcomm : c * ((a + c - 1) / c) = ((a + c - 1) / c) * c := Nat.mul_comm _ _
  have hsub : ((a + c - 1) / c - 1) * c = ((a + c - 1) / c) * c - c :=
    Nat.sub_one_mul _ _ ▸ rfl
  have hge : c ≤ ((a + c - 1) / c) * c := Nat.le_mul_of_pos_left c hN
  omega

theorem ceilDiv_le {a c : Nat} (hc : 0 < c) (h : a ≤ c) (ha : 0 < a) :
    (a + c - 1) / c = 1 := by
  have h1 : 1 ≤ (a + c - 1) / c := by
    apply Nat.le_div_iff_mul_le hc |>.mpr
    omega
  have h2 : (a + c - 1) / c < 2 := by
    apply Nat.div_lt_iff_lt_mul hc |>.mpr
    omega
  omega

theorem safeStripeSize_eq (k m hint : Nat) :
    safeStripeSize k m hint =
      min (((hint + 7) / 8) * 8) (((MAX_HWM / max k m) / 8) * 8) := rfl

/-- C8.  `safeStripeSize` is pure and total, always returns a multiple of 8
with `max(k,m) * result ≤ MAX_HWM`, equals
`min(ceil(hint/8)*8, ((MAX_HWM / max k m) / 8) * 8)`, and returns the hint
unchanged when the hint is 8-aligned and does not exceed the ceiling. -/
theorem safeStripeSize_spec (k m hint : Nat) (hk : 0 < k) (hm : 0 < m) :
    safeStripeSize k m hint % 8 = 0 ∧
    max k m * safeStripeSize k m hint ≤ MAX_HWM ∧
    safeStripeSize k m hint =
      min (((hint + 7) / 8) * 8) (((MAX_HWM / max k m) / 8) * 8) ∧
    (hint % 8 = 0 → hint ≤ ((MAX_HWM / max k m) / 8) * 8 →
      safeStripeSize k m hint = hint) := by
  have hdm : MAX_HWM / max k m * max k m ≤ MAX_HWM := Nat.div_mul_le_self _ _
  simp only [safeStripeSize_eq]
  refine ⟨?_, ?_, trivial, ?_⟩
  · generalize MAX_HWM / max k m = M
    omega
  · have h1 : min (((hint + 7) / 8) * 8) (((MAX_HWM / max k m) / 8) * 8) ≤
        MAX_HWM / max k m := by
      generalize MAX_HWM / max k m = M
      omega
    calc max k m * min (((hint + 7) / 8) * 8) (((MAX_HWM / max k m) / 8) * 8)
        ≤ max k m * (MAX_HWM / max k m) := Nat.mul_le_mul_left _ h1
      _ = MAX_HWM / max k m * max k m := Nat.mul_comm _ _
      _ ≤ MAX_HWM := hdm
  · intro hal hle
    generalize MAX_HWM / max k m = M at hle ⊢
    omega

/-- Witness for C8 at (k, m, hint) = (2, 1, 8192). -/
theorem safeStripeSize_spec_witness :
    safeStripeSize 2 1 8192 % 8 = 0 ∧
    max 2 1 * safeStripeSize 2 1 8192 ≤ MAX_HWM ∧
    safeStripeSize 2 1 8192 =
      min (((8192 + 7) / 8) * 8) (((MAX_HWM / max 2 1) / 8) * 8) ∧
    (8192 % 8 = 0 → 8192 ≤ ((MAX_HWM / max 2 1) / 8) * 8 →
      safeStripeSize 2 1 8192 = 8192) :=
  safeStripeSize_spec 2 1 8192 (by decide) (by decide)

-- Bit-level toolkit.

theorem popcount_rec (n : Nat) (h : 0 < n) :
    popcount n = n % 2 + popcount (n / 2) := by
  match n, h with
  | n + 1, _ => rw [popcount]

theorem and_eq_zero_iff {x y : Nat} :
    x &&& y = 0 ↔ ∀ j, x.testBit j = false ∨ y.testBit j = false := by
  constructor
  · intro h j
    have hb : (x &&& y).testBit j = false := by rw [h]; exact Nat.zero_testBit j
    rw [Nat.testBit_and] at hb
    rcases Bool.and_eq_false_iff.mp hb with h1 | h1
    · exact Or.inl h1
    · exact Or.inr h1
  · intro h
    apply Nat.eq_of_testBit_eq
    intro j
    rw [Nat.testBit_and, Nat.zero_testBit]
    rcases h j with h1 | h1 <;> simp [h1]

theorem or_one_shiftLeft_eq_add {s i : Nat} (h : s < 2 ^ i) :
    s ||| (1 <<< i) = s + 2 ^ i := by
  rw [Nat.one_shiftLeft, Nat.or_comm]
  have h2 := Nat.mul_add_lt_is_or h 1
  simp only [Nat.mul_one] at h2
  omega

theorem popcount_add_two_pow : ∀ (i s : Nat), s < 2 ^ i →
    popcount (s + 2 ^ i) = popcount s + 1 := by
  intro i
  induction i with
  | zero =>
    intro s hs
    interval_cases s
    have h0 : popcount 0 = 0 := by rw [popcount.eq_def]
    have h1 : popcount 1 = 1 := by rw [popcount_rec 1 (by norm_num), h0]
    rw [h0]
    norm_num [h1]
  | succ i ih =>
    intro s hs
    have h1 : 0 < s + 2 ^ (i + 1) := by positivity
    rw [popcount_rec _ h1]
    have h2 : (s + 2 ^ (i + 1)) % 2 = s % 2 := by
      have : 2 ^ (i + 1) = 2 * 2 ^ i := by ring
      omega
    have h3 : (s + 2 ^ (i + 1)) / 2 = s / 2 + 2 ^ i := by
      have : 2 ^ (i + 1) = 2 * 2 ^ i := by ring
      omega
    rw [h2, h3, ih (s / 2) (by
      have : 2 ^ (i + 1) = 2 * 2 ^ i := by ring
      omega)]
    rcases Nat.eq_zero_or_pos s with hz | hp
    · subst hz; simp [popcount]
    · rw [popcount_rec s hp]; omega

theorem popcount_two_pow_sub_one : ∀ k : Nat, popcount (2 ^ k - 1) = k := by
  intro k
  induction k with
  | zero => simp [popcount]
  | succ k ih =>
    have hp : 0 < 2 ^ k := Nat.two_pow_pos k
    have h1 : 2 ^ (k + 1) - 1 = (2 ^ k - 1) + 2 ^ k := by
      have h2 : 2 ^ (k + 1) = 2 * 2 ^ k := by ring
      omega
    rw [h1, popcount_add_two_pow k _ (by omega), ih]

theorem or_bit_and_eq_zero {s t i : Nat} (hst : s &&& t = 0) (ht : t < 2 ^ i) :
    (s ||| (1 <<< i)) &&& t = 0 := by
  rw [Nat.one_shiftLeft]
  apply and_eq_zero_iff.mpr
  intro j
  rcases and_eq_zero_iff.mp hst j with h | h
  · by_cases hj : j = i
    · subst hj
      right
      exact Nat.testBit_lt_two_pow ht
    · left
      rw [Nat.testBit_or, h, Nat.testBit_two_pow_of_ne (fun he => hj he.symm)]
      rfl
  · right; exact h

theorem and_or_bit_eq_zero {s t i : Nat} (hst : s &&& t = 0) (hs : s < 2 ^ i) :
    s &&& (t ||| (1 <<< i)) = 0 := by
  rw [Nat.and_comm]
  rw [Nat.and_comm] at hst
  exact or_bit_and_eq_zero hst hs

theorem or_one_shiftLeft_lt {s i n : Nat} (hs : s < 2 ^ i) (hi : i < n) :
    s ||| (1 <<< i) < 2 ^ n := by
  rw [or_one_shiftLeft_eq_add hs]
  have h1 : 2 ^ (i + 1) ≤ 2 ^ n := Nat.pow_le_pow_right (by norm_num) hi
  have h2 : 2 ^ (i + 1) = 2 * 2 ^ i := by ring
  omega

theorem popcount_zero : popcount 0 = 0 := by rw [popcount.eq_def]

theorem popcount_or_one_shiftLeft {s i : Nat} (hs : s < 2 ^ i) :
    popcount (s ||| (1 <<< i)) = popcount s + 1 := by
  rw [or_one_shiftLeft_eq_add hs, popcount_add_two_pow i s hs]

-- Invariants of the role-selection loops.

theorem decodeDataLoop_inv (k : Nat) :
    ∀ (lanes : List Bool) (i : Nat) (r : Roles),
      r.sources < 2 ^ i → r.targets < 2 ^ i →
      popcount r.sources = r.available → r.sources &&& r.targets = 0 →
      popcount (decodeDataLoop k lanes i r).sources
          = (decodeDataLoop k lanes i r).available ∧
        (decodeDataLoop k lanes i r).sources &&&
          (decodeDataLoop k lanes i r).targets = 0 := by
  intro lanes
  induction lanes with
  | nil =>
    intro i r hs ht hp hd
    exact ⟨hp, hd⟩
  | cons present rest ih =>
    intro i r hs ht hp hd
    have hii : i < i + 1 := Nat.lt_succ_self i
    cases present with
    | false =>
      rw [decodeDataLoop, if_neg Bool.false_ne_true]
      exact ih (i + 1)
        { r with targets := r.targets ||| (1 <<< i) }
        (lt_trans hs (Nat.pow_lt_pow_right (by norm_num) hii))
        (or_one_shiftLeft_lt ht hii)
        hp (and_or_bit_eq_zero hd hs)
    | true =>
      rw [decodeDataLoop, if_pos rfl]
      by_cases hk1 : r.available + 1 = k
      · rw [if_pos hk1]
        exact ⟨by rw [popcount_or_one_shiftLeft hs]; rw [hp],
          or_bit_and_eq_zero hd ht⟩
      · rw [if_neg hk1]
        exact ih (i + 1)
          { r with sources := r.sources ||| (1 <<< i),
                   available := r.available + 1 }
          (or_one_shiftLeft_lt hs hii)
          (lt_trans ht (Nat.pow_lt_pow_right (by norm_num) hii))
          (by rw [popcount_or_one_shiftLeft hs]; rw [hp])
          (or_bit_and_eq_zero hd ht)

theorem decodeDataLoop_lt (k : Nat) :
    ∀ (lanes : List Bool) (i : Nat) (r : Roles),
      r.sources < 2 ^ i → r.targets < 2 ^ i →
      (decodeDataLoop k lanes i r).sources < 2 ^ (i + lanes.length) ∧
        (decodeDataLoop k lanes i r).targets < 2 ^ (i + lanes.length) := by
  intro lanes
  induction lanes with
  | nil =>
    intro i r hs ht
    simpa using ⟨hs, ht⟩
  | cons present rest ih =>
    intro i r hs ht
    have hii : i < i + 1 := Nat.lt_succ_self i
    have harith : i + 1 + rest.length = i + (present :: rest).length := by
      simp; omega
    have hmono : (2:Nat) ^ (i + 1) ≤ 2 ^ (i + (present :: rest).length) := by
      apply Nat.pow_le_pow_right (by norm_num)
      simp
    cases present with
    | false =>
      rw [decodeDataLoop, if_neg Bool.false_ne_true]
      have := ih (i + 1) { r with targets := r.targets ||| (1 <<< i) }
        (lt_trans hs (Nat.pow_lt_pow_right (by norm_num) hii))
        (or_one_shiftLeft_lt ht hii)
      rw [harith] at this
      exact this
    | true =>
      rw [decodeDataLoop, if_pos rfl]
      by_cases hk1 : r.available + 1 = k
      · rw [if_pos hk1]
        refine ⟨lt_of_lt_of_le (or_one_shiftLeft_lt hs hii) hmono, ?_⟩
        exact lt_of_lt_of_le
          (lt_trans ht (Nat.pow_lt_pow_right (by norm_num) hii)) hmono
      · rw [if_neg hk1]
        have := ih (i + 1)
          { r with sources := r.sources ||| (1 <<< i),
                   available := r.available + 1 }
          (or_one_shiftLeft_lt hs hii)
          (lt_trans ht (Nat.pow_lt_pow_right (by norm_num) hii))
        rw [harith] at this
        exact this

theorem decodeParityLoop_inv (k : Nat) :
    ∀ (lanes : List Bool) (i : Nat) (r : Roles),
      r.sources < 2 ^ i → r.targets < 2 ^ i →
      popcount r.sources = r.available → r.sources &&& r.targets = 0 →
      popcount (decodeParityLoop k lanes i r).sources
          = (decodeParityLoop k lanes i r).available ∧
        (decodeParityLoop k lanes i r).sources &&&
          (decodeParityLoop k lanes i r).targets = 0 := by
  intro lanes
  induction lanes with
  | nil =>
    intro i r hs ht hp hd
    exact ⟨hp, hd⟩
  | cons present rest ih =>
    intro i r hs ht hp hd
    have hii : i < i + 1 := Nat.lt_succ_self i
    cases present with
    | false =>
      rw [decodeParityLoop, if_neg Bool.false_ne_true]
      exact ih (i + 1) r
        (lt_trans hs (Nat.pow_lt_pow_right (by norm_num) hii))
        (lt_trans ht (Nat.pow_lt_pow_right (by norm_num) hii))
        hp hd
    | true =>
      rw [decodeParityLoop, if_pos rfl]
      by_cases hk1 : r.available + 1 = k
      · rw [if_pos hk1]
        exact ⟨by rw [popcount_or_one_shiftLeft hs]; rw [hp],
          or_bit_and_eq_zero hd ht⟩
      · rw [if_neg hk1]
        exact ih (i + 1)
          { r with sources := r.sources ||| (1 <<< i),
                   available := r.available + 1 }
          (or_one_shiftLeft_lt hs hii)
          (lt_trans ht (Nat.pow_lt_pow_right (by norm_num) hii))
          (by rw [popcount_or_one_shiftLeft hs]; rw [hp])
          (or_bit_and_eq_zero hd ht)

theorem repairSourcesLoop_inv (k : Nat) :
    ∀ (lanes : List Bool) (i sources available : Nat),
      sources < 2 ^ i → popcount sources = available →
      popcount (repairSourcesLoop k lanes i sources available).1
        = (repairSourcesLoop k lanes i sources available).2 := by
  intro lanes
  induction lanes with
  | nil =>
    intro i s a hs hp
    exact hp
  | cons present rest ih =>
    intro i s a hs hp
    have hii : i < i + 1 := Nat.lt_succ_self i
    cases present with
    | false =>
      rw [repairSourcesLoop, if_neg Bool.false_ne_true]
      exact ih (i + 1) s a
        (lt_trans hs (Nat.pow_lt_pow_right (by norm_num) hii)) hp
    | true =>
      rw [repairSourcesLoop, if_pos rfl]
      by_cases ha : a = k
      · rw [if_pos ha]
        exact hp
      · rw [if_neg ha]
        exact ih (i + 1) (s ||| (1 <<< i)) (a + 1)
          (or_one_shiftLeft_lt hs hii)
          (by rw [popcount_or_one_shiftLeft hs, hp])

theorem getPartRoles_eq (dataStreams parityStreams : List Bool) :
    getPartRoles dataStreams parityStreams =
      if (decodeDataLoop dataStreams.length dataStreams 0 ⟨0, 0, 0⟩).available
          < dataStreams.length then
        decodeParityLoop dataStreams.length parityStreams dataStreams.length
          (decodeDataLoop dataStreams.length dataStreams 0 ⟨0, 0, 0⟩)
      else decodeDataLoop dataStreams.length dataStreams 0 ⟨0, 0, 0⟩ := rfl

theorem getPartRoles_inv (dataStreams parityStreams : List Bool) :
    popcount (getPartRoles dataStreams parityStreams).sources
        = (getPartRoles dataStreams parityStreams).available ∧
      (getPartRoles dataStreams parityStreams).sources &&&
        (getPartRoles dataStreams parityStreams).targets = 0 := by
  rw [getPartRoles_eq]
  have h0 : (⟨0, 0, 0⟩ : Roles).sources < 2 ^ 0 := by norm_num
  have h1 : (⟨0, 0, 0⟩ : Roles).targets < 2 ^ 0 := by norm_num
  have hdata := decodeDataLoop_inv dataStreams.length dataStreams 0 ⟨0, 0, 0⟩
    h0 h1 popcount_zero rfl
  have hlt := decodeDataLoop_lt dataStreams.length dataStreams 0 ⟨0, 0, 0⟩ h0 h1
  rw [Nat.zero_add] at hlt
  split
  · exact decodeParityLoop_inv dataStreams.length parityStreams
      dataStreams.length _ hlt.1 hlt.2 hdata.1 hdata.2
  · exact hdata

theorem repairGetPartRoles_popcount (k : Nat) (istreams ostreams : List Bool) :
    popcount (repairGetPartRoles k istreams ostreams).sources
      = (repairGetPartRoles k istreams ostreams).available := by
  exact repairSourcesLoop_inv k istreams 0 0 0 (by norm_num) popcount_zero

theorem encodeSources_popcount (k : Nat) : popcount (encodeSources k) = k := by
  rw [encodeSources, Nat.one_shiftLeft]
  exact popcount_two_pow_sub_one k

theorem encodeRoles_disjoint (k m : Nat) :
    encodeSources k &&& encodeTargets k m = 0 := by
  apply and_eq_zero_iff.mpr
  intro j
  by_cases hj : j < k
  · right
    rw [encodeTargets, Nat.testBit_shiftLeft]
    simp [Nat.not_le.mpr hj]
  · left
    rw [encodeSources, Nat.one_shiftLeft, Nat.testBit_two_pow_sub_one]
    simp [hj]

/-- C3 counterexample: a repair that proceeds (available = k = 1, both input
lanes present, output requested on lane 0) violates `sources & targets == 0`,
because lane 0 is both the first available source and a requested output. -/
theorem roleBitfields_cex :
    (repairGetPartRoles 1 [true, true] [true, false]).available = 1 ∧
    ¬((repairGetPartRoles 1 [true, true] [true, false]).sources &&&
        (repairGetPartRoles 1 [true, true] [true, false]).targets = 0) := by
  decide

/-- C3 (amended).  For every operation that proceeds,
`popcount(sources) == k`; the disjointness `sources & targets == 0` holds
for encode and decode, but in repair a requested output on a source lane
makes the two masks overlap. -/
theorem roleBitfields_spec (k m : Nat)
    (dataStreams parityStreams istreams ostreams : List Bool)
    (hd : dataStreams.length = k) :
    (popcount (encodeSources k) = k ∧
      encodeSources k &&& encodeTargets k m = 0) ∧
    ((getPartRoles dataStreams parityStreams).available = k →
      popcount (getPartRoles dataStreams parityStreams).sources = k ∧
      (getPartRoles dataStreams parityStreams).sources &&&
        (getPartRoles dataStreams parityStreams).targets = 0) ∧
    ((repairGetPartRoles k istreams ostreams).available = k →
      popcount (repairGetPartRoles k istreams ostreams).sources = k) := by
  refine ⟨⟨encodeSources_popcount k, encodeRoles_disjoint k m⟩, ?_, ?_⟩
  · intro hav
    have h := getPartRoles_inv dataStreams parityStreams
    exact ⟨by rw [h.1, hav], h.2⟩
  · intro hav
    rw [repairGetPartRoles_popcount k istreams ostreams, hav]

/-- Witness for C3 (amended) at k = 2, m = 1 with all decode lanes present
and a repair reading lanes 0 and 1 while rewriting lane 2. -/
theorem roleBitfields_spec_witness :
    ((popcount (encodeSources 2) = 2 ∧
      encodeSources 2 &&& encodeTargets 2 1 = 0) ∧
    ((getPartRoles [true, true] [true]).available = 2 →
      popcount (getPartRoles [true, true] [true]).sources = 2 ∧
      (getPartRoles [true, true] [true]).sources &&&
        (getPartRoles [true, true] [true]).targets = 0) ∧
    ((repairGetPartRoles 2 [true, true, true] [false, false, true]).available
        = 2 →
      popcount
        (repairGetPartRoles 2 [true, true, true] [false, false, true]).sources
        = 2)) :=
  roleBitfields_spec 2 1 [true, true] [true] [true, true, true]
    [false, false, true] rfl

/-- C2.  When fewer than `k` input lanes are available, both `decode` and
`repair` record the insufficient-shards error with the exact counts in its
message, attach no read handler to any lane and drain no lane: the check
happens once, at entry, before any read. -/
theorem insufficientShards_spec
    (dataStreams parityStreams istreams ostreams : List Bool) (k : Nat)
    (hk : dataStreams.length = k) :
    ((getPartRoles dataStreams parityStreams).available < k →
      decodeInit dataStreams parityStreams =
        { roles := getPartRoles dataStreams parityStreams,
          inputError := some (insufficientMsg
            (getPartRoles dataStreams parityStreams).available k),
          readHandlers := [], drained := [] }) ∧
    ((repairGetPartRoles k istreams ostreams).available < k →
      repairInit k istreams ostreams =
        { roles := repairGetPartRoles k istreams ostreams,
          inputError := some (insufficientMsg
            (repairGetPartRoles k istreams ostreams).available k),
          readHandlers := [], drained := [] }) := by
  subst hk
  constructor
  · intro hav
    simp only [decodeInit]
    rw [if_pos hav]
  · intro hav
    simp only [repairInit]
    rw [if_pos hav]

/-- Witness for C2: a (4, 2) decode with lanes 1, 2 and parity lane 0
available (3 < 4, the scenario of the test suite), and a (2, 1) repair with
one available lane (1 < 2). -/
theorem insufficientShards_spec_witness :
    (decodeInit [false, true, true, false] [true, false] =
      { roles := getPartRoles [false, true, true, false] [true, false],
        inputError := some (insufficientMsg
          (getPartRoles [false, true, true, false] [true, false]).available 4),
        readHandlers := [], drained := [] }) ∧
    (repairInit 2 [true, false, false] [false, true, false] =
      { roles := repairGetPartRoles 2 [true, false, false] [false, true, false],
        inputError := some (insufficientMsg
          (repairGetPartRoles 2 [true, false, false]
            [false, true, false]).available 2),
        readHandlers := [], drained := [] }) :=
  ⟨(insufficientShards_spec [false, true, true, false] [true, false]
      [true, false, false] [false, true, false] 4 rfl).1 (by decide),
   (insufficientShards_spec [false, false] [false] [true, false, false]
      [false, true, false] 2 rfl).2 (by decide)⟩

-- The shared context: error broadcast and stripe completion.

theorem ctxError_eq_of_none {c : Ctx} {e : Nat} (h : c.inputError = none) :
    c.error e = ({ c with inputError := some e },
      c.liveOut.map (fun l => Act.errorEvt l e)) := by
  rw [Ctx.error.eq_def, h]

theorem ctxError_eq_of_some {c : Ctx} {e0 : Nat} (e : Nat)
    (h : c.inputError = some e0) : c.error e = (c, []) := by
  rw [Ctx.error.eq_def, h]

/-- C4.  `error(err)` is first-caller-wins: the first call records the error
and emits exactly one `error` event on each live output lane; any later call
leaves the context unchanged and emits nothing. -/
theorem errorBroadcast_spec (c : Ctx) (e1 e2 : Nat) (h : c.inputError = none)
    (hnd : c.liveOut.Nodup) :
    (c.error e1).1.inputError = some e1 ∧
    (c.error e1).2 = c.liveOut.map (fun l => Act.errorEvt l e1) ∧
    (∀ l ∈ c.liveOut, (c.error e1).2.count (Act.errorEvt l e1) = 1) ∧
    (c.error e1).1.error e2 = ((c.error e1).1, []) := by
  rw [ctxError_eq_of_none h]
  refine ⟨rfl, rfl, ?_, ?_⟩
  · intro l hl
    have hinj : Function.Injective (fun l => Act.errorEvt l e1) := by
      intro a b hab
      simpa using hab
    show ((c.liveOut.map (fun l => Act.errorEvt l e1)).count
      ((fun l => Act.errorEvt l e1) l)) = 1
    rw [List.count_map_of_injective _ _ hinj]
    exact List.count_eq_one_of_mem hnd hl
  · exact ctxError_eq_of_some e2 rfl

/-- Witness for C4 on the sample context. -/
theorem errorBroadcast_spec_witness :
    (sampleCtx.error 7).1.inputError = some 7 ∧
    (sampleCtx.error 7).2 = sampleCtx.liveOut.map (fun l => Act.errorEvt l 7) ∧
    (∀ l ∈ sampleCtx.liveOut,
      (sampleCtx.error 7).2.count (Act.errorEvt l 7) = 1) ∧
    (sampleCtx.error 7).1.error 9 = ((sampleCtx.error 7).1, []) :=
  errorBroadcast_spec sampleCtx 7 9 rfl (by decide)

theorem ctxUnref_eq_last {c : Ctx} (h : c.processedStripe + 1 = c.nStripe) :
    c.unref = ({ c with
      inFlight := false
      processedStripe := c.processedStripe + 1 }, c.liveOut.map Act.endEvt) := by
  rw [Ctx.unref]
  rw [if_pos h]

theorem ctxUnref_eq_more {c : Ctx} (h : ¬(c.processedStripe + 1 = c.nStripe)) :
    c.unref = ({ c with
      inFlight := false
      processedStripe := c.processedStripe + 1
      waiting := c.sources },
      c.liveIn.map Act.wake) := by
  rw [Ctx.unref]
  rw [if_neg h]

/-- C6.  On successful stripe completion `unref` clears the in-flight flag
and increments `processedStripe`; when this was the last stripe it emits
`end` exactly once on every live output, otherwise it resets the stripe
(`waiting := sources`, fresh buffers) and emits a `readable` wake on every
live input lane. -/
theorem unref_spec (c : Ctx) (hndOut : c.liveOut.Nodup)
    (hndIn : c.liveIn.Nodup) :
    (c.unref).1.inFlight = false ∧
    (c.unref).1.processedStripe = c.processedStripe + 1 ∧
    (c.processedStripe + 1 = c.nStripe →
      (c.unref).2 = c.liveOut.map Act.endEvt ∧
      ∀ l ∈ c.liveOut, (c.unref).2.count (Act.endEvt l) = 1) ∧
    (c.processedStripe + 1 ≠ c.nStripe →
      (c.unref).1.waiting = c.sources ∧
      (c.unref).2 = c.liveIn.map Act.wake ∧
      ∀ l ∈ c.liveIn, (c.unref).2.count (Act.wake l) = 1) := by
  by_cases h : c.processedStripe + 1 = c.nStripe
  · rw [ctxUnref_eq_last h]
    refine ⟨rfl, rfl, fun _ => ⟨rfl, ?_⟩, fun hne => absurd h hne⟩
    intro l hl
    have hinj : Function.Injective Act.endEvt := by
      intro a b hab
      simpa using hab
    show ((c.liveOut.map Act.endEvt).count (Act.endEvt l)) = 1
    rw [List.count_map_of_injective _ _ hinj]
    exact List.count_eq_one_of_mem hndOut hl
  · rw [ctxUnref_eq_more h]
    refine ⟨rfl, rfl, fun he => absurd he h, fun _ => ⟨rfl, rfl, ?_⟩⟩
    intro l hl
    have hinj : Function.Injective Act.wake := by
      intro a b hab
      simpa using hab
    show ((c.liveIn.map Act.wake).count (Act.wake l)) = 1
    rw [List.count_map_of_injective _ _ hinj]
    exact List.count_eq_one_of_mem hndIn hl

/-- Witness for C6 on the sample context. -/
theorem unref_spec_witness :
    (sampleCtx.unref).1.inFlight = false ∧
    (sampleCtx.unref).1.processedStripe = sampleCtx.processedStripe + 1 ∧
    (sampleCtx.processedStripe + 1 = sampleCtx.nStripe →
      (sampleCtx.unref).2 = sampleCtx.liveOut.map Act.endEvt ∧
      ∀ l ∈ sampleCtx.liveOut,
        (sampleCtx.unref).2.count (Act.endEvt l) = 1) ∧
    (sampleCtx.processedStripe + 1 ≠ sampleCtx.nStripe →
      (sampleCtx.unref).1.waiting = sampleCtx.sources ∧
      (sampleCtx.unref).2 = sampleCtx.liveIn.map Act.wake ∧
      ∀ l ∈ sampleCtx.liveIn,
        (sampleCtx.unref).2.count (Act.wake l) = 1) :=
  unref_spec sampleCtx (by decide) (by decide)

/-- C5 counterexample: on the errored sample context (terminal error already
recorded, a stripe in flight) the dispatch of a failed stripe still emits
`readable` wakes to both input lanes, and a subsequent pair of readiness
signals submits a fresh stripe to the primitive — the context is not inert
after an error. -/
theorem inertAfterError_cex :
    erroredCtx.inputError = some 5 ∧
    Act.wake 0 ∈ (decodeDispatchStep erroredCtx (some 7)).2 ∧
    Act.submit ∈
      (run erroredCtx [Ev.done (some 7), Ev.readable 0, Ev.readable 1]).2 := by
  decide

/-- C5 (amended).  After an error has been signaled, no further `error`
event is ever delivered (first error wins) and the terminal-error field is
never overwritten; the context is however not inert: the dispatch of the
in-flight stripe still calls `unref`, which on a non-final stripe resets the
stripe and wakes every live input lane (so further stripes may be read and
submitted), and on the final stripe emits `end` to the outputs. -/
theorem inertAfterError_spec (c : Ctx) (e : Nat) (err : Option Nat)
    (h : c.inputError.isSome) :
    c.error e = (c, []) ∧
    (decodeDispatchStep c err).1.inputError = c.inputError ∧
    (err.isSome → c.processedStripe + 1 ≠ c.nStripe →
      (decodeDispatchStep c err).2 = c.liveIn.map Act.wake) ∧
    (err.isSome → c.processedStripe + 1 = c.nStripe →
      (decodeDispatchStep c err).2 = c.liveOut.map Act.endEvt) := by
  obtain ⟨e0, he0⟩ := Option.isSome_iff_exists.mp h
  have herr : c.error e = (c, []) := ctxError_eq_of_some e he0
  refine ⟨herr, ?_, ?_, ?_⟩
  · cases err with
    | none =>
      simp only [decodeDispatchStep]
      by_cases hl : c.processedStripe + 1 = c.nStripe
      · rw [ctxUnref_eq_last hl]
      · rw [ctxUnref_eq_more hl]
    | some eprim =>
      simp only [decodeDispatchStep, ctxError_eq_of_some eprim he0]
      by_cases hl : c.processedStripe + 1 = c.nStripe
      · rw [ctxUnref_eq_last hl]
      · rw [ctxUnref_eq_more hl]
  · intro hs hne
    cases err with
    | none => simp at hs
    | some eprim =>
      simp only [decodeDispatchStep, ctxError_eq_of_some eprim he0]
      rw [ctxUnref_eq_more hne]
      simp
  · intro hs hl
    cases err with
    | none => simp at hs
    | some eprim =>
      simp only [decodeDispatchStep, ctxError_eq_of_some eprim he0]
      rw [ctxUnref_eq_last hl]
      simp

-- One stripe in flight (C9).

theorem and_xor_mask_self {s : Nat} (h : s < 2 ^ 32) :
    s &&& (0xFFFFFFFF ^^^ s) = 0 := by
  apply and_eq_zero_iff.mpr
  intro j
  by_cases hb : s.testBit j = true
  · right
    have hj : j < 32 := by
      by_contra hj32
      push_neg at hj32
      have hlt : s < 2 ^ j :=
        lt_of_lt_of_le h (Nat.pow_le_pow_right (by norm_num) hj32)
      rw [Nat.testBit_lt_two_pow hlt] at hb
      exact Bool.false_ne_true hb
    have hm : (0xFFFFFFFF : Nat).testBit j = true := by
      have he : (0xFFFFFFFF : Nat) = 2 ^ 32 - 1 := by norm_num
      rw [he, Nat.testBit_two_pow_sub_one]
      simpa using hj
    rw [Nat.testBit_xor, hm, hb]
    rfl
  · left
    simpa using hb

theorem decodeBufferStep_inFlight (c : Ctx) (i : Nat) (h : c.inFlight = true) :
    decodeBufferStep c i = (c, []) := by
  unfold decodeBufferStep
  rw [if_pos (show c.wait = true from h)]

theorem encodeBufferStep_inFlight (c : Ctx) (ended : Bool)
    (h : c.inFlight = true) : encodeBufferStep c ended = (c, []) := by
  unfold encodeBufferStep
  rw [if_pos (show c.wait = true from h)]

theorem decodeBufferStep_submit (c : Ctx) (i : Nat)
    (h : Act.submit ∈ (decodeBufferStep c i).2) :
    c.inFlight = false ∧ (decodeBufferStep c i).1.waiting = 0 ∧
      (decodeBufferStep c i).1.inFlight = true := by
  by_cases hf : c.inFlight = true
  · rw [decodeBufferStep_inFlight c i hf] at h
    simp at h
  · have hf2 : c.inFlight = false := by simpa using hf
    refine ⟨hf2, ?_⟩
    unfold decodeBufferStep at h ⊢
    rw [if_neg (show ¬(c.wait = true) by simp [Ctx.wait, hf2])] at h ⊢
    by_cases hwb : c.waiting &&& (1 <<< i) = 0
    · rw [if_pos hwb] at h
      simp at h
    · rw [if_neg hwb] at h ⊢
      cases hfill : fillStripeBuffers c i with
      | none =>
        rw [hfill] at h
        simp at h
      | some c1 =>
        rw [hfill] at h
        simp only [] at h ⊢
        by_cases hr : (c1.addedToStripe (1 <<< i)).readyForEncoding = true
        · rw [if_pos hr] at h ⊢
          have hw0 : (c1.addedToStripe (1 <<< i)).waiting = 0 := by
            simpa [Ctx.readyForEncoding] using hr
          exact ⟨hw0, rfl⟩
        · rw [if_neg hr] at h
          simp at h

theorem encodeBufferStep_submit (c : Ctx) (ended : Bool)
    (h : Act.submit ∈ (encodeBufferStep c ended).2) :
    c.inFlight = false ∧ (encodeBufferStep c ended).1.inFlight = true ∧
      (encodeBufferStep c ended).1.waiting
        = c.waiting &&& (0xFFFFFFFF ^^^ c.sources) := by
  by_cases hf : c.inFlight = true
  · rw [encodeBufferStep_inFlight c ended hf] at h
    simp at h
  · have hf2 : c.inFlight = false := by simpa using hf
    refine ⟨hf2, ?_⟩
    unfold encodeBufferStep at h ⊢
    rw [if_neg (show ¬(c.wait = true) by simp [Ctx.wait, hf2])] at h ⊢
    cases hread : encodeRead c ended with
    | none =>
      rw [hread] at h
      simp at h
    | some n =>
      rw [hread] at h
      exact ⟨rfl, rfl⟩

/-- C9.  At most one stripe is in flight per context: while the in-flight
flag is set, every buffer-filling step (decode/repair and encode) returns at
once without touching the context; any submission is reached only from a
step that started with no stripe in flight; a decode/repair submission
always leaves `waiting == 0` at the `ref` call (including partially-filled
stripes, where the last source lane just cleared its bit); and an encode
submission leaves `waiting == 0` from every state encode can read in (a
fresh stripe, `waiting == sources`, `addedToStripe(sources)` clears all
bits).  So the assertion in `ref` never fires. -/
theorem singleInFlight_spec (c : Ctx) (i : Nat) (ended : Bool) :
    (c.inFlight = true →
      decodeBufferStep c i = (c, []) ∧ encodeBufferStep c ended = (c, [])) ∧
    (Act.submit ∈ (decodeBufferStep c i).2 →
      c.inFlight = false ∧ (decodeBufferStep c i).1.waiting = 0 ∧
        (decodeBufferStep c i).1.inFlight = true) ∧
    (Act.submit ∈ (encodeBufferStep c ended).2 →
      c.inFlight = false ∧ (encodeBufferStep c ended).1.inFlight = true) ∧
    (c.waiting = c.sources → c.sources < 2 ^ 32 →
      Act.submit ∈ (encodeBufferStep c ended).2 →
      (encodeBufferStep c ended).1.waiting = 0) := by
  refine ⟨fun hf => ⟨decodeBufferStep_inFlight c i hf,
      encodeBufferStep_inFlight c ended hf⟩,
    fun h => decodeBufferStep_submit c i h,
    fun h => ⟨(encodeBufferStep_submit c ended h).1,
      (encodeBufferStep_submit c ended h).2.1⟩,
    fun hw hs32 h => ?_⟩
  rw [(encodeBufferStep_submit c ended h).2.2, hw]
  exact and_xor_mask_self hs32

/-- Witness for C9 on the sample context (no stripe in flight, both data
lanes holding a full stripe, so a decode readiness signal on lane 0 fills
one slice and does not submit; the hypotheses of the inner implications are
concrete). -/
theorem singleInFlight_spec_witness :
    (sampleCtx.inFlight = true →
      decodeBufferStep sampleCtx 0 = (sampleCtx, []) ∧
        encodeBufferStep sampleCtx false = (sampleCtx, [])) ∧
    (Act.submit ∈ (decodeBufferStep sampleCtx 0).2 →
      sampleCtx.inFlight = false ∧
        (decodeBufferStep sampleCtx 0).1.waiting = 0 ∧
        (decodeBufferStep sampleCtx 0).1.inFlight = true) ∧
    (Act.submit ∈ (encodeBufferStep sampleCtx false).2 →
      sampleCtx.inFlight = false ∧
        (encodeBufferStep sampleCtx false).1.inFlight = true) ∧
    (sampleCtx.waiting = sampleCtx.sources → sampleCtx.sources < 2 ^ 32 →
      Act.submit ∈ (encodeBufferStep sampleCtx false).2 →
      (encodeBufferStep sampleCtx false).1.waiting = 0) :=
  singleInFlight_spec sampleCtx 0 false

/-- Witness for C5 (amended) on the errored sample context. -/
theorem inertAfterError_spec_witness :
    erroredCtx.error 9 = (erroredCtx, []) ∧
    (decodeDispatchStep erroredCtx (some 7)).1.inputError
      = erroredCtx.inputError ∧
    ((some 7 : Option Nat).isSome →
      erroredCtx.processedStripe + 1 ≠ erroredCtx.nStripe →
      (decodeDispatchStep erroredCtx (some 7)).2
        = erroredCtx.liveIn.map Act.wake) ∧
    ((some 7 : Option Nat).isSome →
      erroredCtx.processedStripe + 1 = erroredCtx.nStripe →
      (decodeDispatchStep erroredCtx (some 7)).2
        = erroredCtx.liveOut.map Act.endEvt) :=
  inertAfterError_spec erroredCtx 9 (some 7) (by decide)

-- Empty objects (C10).

theorem safeStripeSize_pos {k m hint : Nat} (hk : 0 < k) (hk24 : k ≤ 24)
    (hm6 : m ≤ 6) (hh : 0 < hint) : 0 < safeStripeSize k m hint := by
  rw [safeStripeSize_eq]
  have h1 : max k m ≤ 24 := by omega
  have h2 : 0 < max k m := by omega
  have h3 : MAX_HWM / 24 ≤ MAX_HWM / max k m :=
    Nat.div_le_div_left h1 (by omega)
  have h4 : (349525 : Nat) = MAX_HWM / 24 := by norm_num [MAX_HWM]
  generalize MAX_HWM / max k m = M at *
  omega

theorem lanes_getD_empty :
    ∀ (lanes : List (List Nat)), (∀ l ∈ lanes, l = []) →
      ∀ i, lanes.getD i [] = [] := by
  intro lanes
  induction lanes with
  | nil =>
    intro h i
    cases i <;> rfl
  | cons x xs ih =>
    intro h i
    cases i with
    | zero =>
      rw [List.getD_cons_zero]
      exact h x (List.mem_cons_self x xs)
    | succ j =>
      rw [List.getD_cons_succ]
      exact ih (fun l hl => h l (List.mem_cons_of_mem x hl)) j

theorem step_empty (c : Ctx) (e : Ev) (hN : c.nStripe = 0)
    (hl : ∀ l ∈ c.lanes, l = []) (hS : 0 < c.S) (hk : 0 < c.k) :
    (step c e).1.nStripe = 0 ∧ (∀ l ∈ (step c e).1.lanes, l = []) ∧
      0 < (step c e).1.S ∧ 0 < (step c e).1.k ∧
      (∀ l, Act.endEvt l ∉ (step c e).2) ∧ Act.submit ∉ (step c e).2 := by
  cases e with
  | readable i =>
    have hnofill : fillStripeBuffers c i = none := by
      unfold fillStripeBuffers
      rw [lanes_getD_empty c.lanes hl i]
      rw [if_neg]
      simp
      omega
    have hres : decodeBufferStep c i = (c, []) := by
      unfold decodeBufferStep
      by_cases hf : c.wait = true
      · rw [if_pos hf]
      · rw [if_neg hf]
        by_cases hwb : c.waiting &&& (1 <<< i) = 0
        · rw [if_pos hwb]
        · rw [if_neg hwb, hnofill]
    rw [show step c (Ev.readable i) = decodeBufferStep c i from rfl, hres]
    exact ⟨hN, hl, hS, hk, by simp, by simp⟩
  | encodeReadable ended =>
    have hkS : 0 < c.k * c.S := Nat.mul_pos hk hS
    have hread : encodeRead c ended = none := by
      unfold encodeRead
      have htr : encodeToRead c = c.k * c.S := by
        unfold encodeToRead
        rw [if_neg (by omega)]
      rw [lanes_getD_empty c.lanes hl 0, htr]
      rw [if_neg (show ¬(c.k * c.S ≤ ([] : List Nat).length) by
        simp
        omega)]
      rw [if_neg (show ¬((ended && decide (0 < ([] : List Nat).length))
        = true) by simp)]
    have hres : encodeBufferStep c ended = (c, []) := by
      unfold encodeBufferStep
      by_cases hf : c.wait = true
      · rw [if_pos hf]
      · rw [if_neg hf, hread]
    rw [show step c (Ev.encodeReadable ended) = encodeBufferStep c ended
      from rfl, hres]
    exact ⟨hN, hl, hS, hk, by simp, by simp⟩
  | upstreamErr err =>
    rw [show step c (Ev.upstreamErr err) = c.error err from rfl]
    cases hie : c.inputError with
    | none =>
      rw [ctxError_eq_of_none hie]
      refine ⟨hN, hl, hS, hk, ?_, ?_⟩
      · intro l
        simp
      · simp
    | some e0 =>
      rw [ctxError_eq_of_some err hie]
      exact ⟨hN, hl, hS, hk, by simp, by simp⟩
  | done err =>
    rw [show step c (Ev.done err) = decodeDispatchStep c err from rfl]
    cases err with
    | none =>
      have hne : c.processedStripe + 1 ≠ c.nStripe := by omega
      simp only [decodeDispatchStep, ctxUnref_eq_more hne]
      refine ⟨hN, hl, hS, hk, ?_, ?_⟩
      · intro l
        simp
      · simp
    | some e =>
      cases hie : c.inputError with
      | none =>
        have hne : ({ c with inputError := some e } : Ctx).processedStripe + 1
            ≠ ({ c with inputError := some e } : Ctx).nStripe := by
          show c.processedStripe + 1 ≠ c.nStripe
          omega
        simp only [decodeDispatchStep, ctxError_eq_of_none hie,
          ctxUnref_eq_more hne]
        refine ⟨hN, hl, hS, hk, ?_, ?_⟩
        · intro l
          simp
        · simp
      | some e0 =>
        have hne : c.processedStripe + 1 ≠ c.nStripe := by omega
        simp only [decodeDispatchStep, ctxError_eq_of_some e hie,
          ctxUnref_eq_more hne]
        refine ⟨hN, hl, hS, hk, ?_, ?_⟩
        · intro l
          simp
        · simp
  | repairDone err =>
    rw [show step c (Ev.repairDone err) = repairDispatchStep c err from rfl]
    cases err with
    | none =>
      have hne : c.processedStripe + 1 ≠ c.nStripe := by omega
      simp only [repairDispatchStep, ctxUnref_eq_more hne]
      refine ⟨hN, hl, hS, hk, ?_, ?_⟩
      · intro l
        simp
      · simp
    | some e =>
      cases hie : c.inputError with
      | none =>
        have hne : ({ c with inputError := some e } : Ctx).processedStripe + 1
            ≠ ({ c with inputError := some e } : Ctx).nStripe := by
          show c.processedStripe + 1 ≠ c.nStripe
          omega
        simp only [repairDispatchStep, ctxError_eq_of_none hie,
          ctxUnref_eq_more hne]
        refine ⟨hN, hl, hS, hk, ?_, ?_⟩
        · intro l
          simp
        · simp
      | some e0 =>
        have hne : c.processedStripe + 1 ≠ c.nStripe := by omega
        simp only [repairDispatchStep, ctxError_eq_of_some e hie,
          ctxUnref_eq_more hne]
        refine ⟨hN, hl, hS, hk, ?_, ?_⟩
        · intro l
          simp
        · simp

theorem run_empty : ∀ (evs : List Ev) (c : Ctx), c.nStripe = 0 →
    (∀ l ∈ c.lanes, l = []) → 0 < c.S → 0 < c.k →
    (∀ l, Act.endEvt l ∉ (run c evs).2) ∧ Act.submit ∉ (run c evs).2 := by
  intro evs
  induction evs with
  | nil =>
    intro c h1 h2 h3 h4
    refine ⟨fun l => ?_, ?_⟩ <;> simp [run]
  | cons e rest ih =>
    intro c h1 h2 h3 h4
    have hs := step_empty c e h1 h2 h3 h4
    have ihr := ih (step c e).1 hs.1 hs.2.1 hs.2.2.1 hs.2.2.2.1
    refine ⟨fun l => ?_, ?_⟩
    · show Act.endEvt l ∉ (run c (e :: rest)).2
      simp only [run, List.mem_append]
      push_neg
      exact ⟨hs.2.2.2.2.1 l, ihr.1 l⟩
    · show Act.submit ∉ (run c (e :: rest)).2
      simp only [run, List.mem_append]
      push_neg
      exact ⟨hs.2.2.2.2.2, ihr.2⟩

/-- C10.  For a zero-byte object the `DencodeContext` constructor computes
`nStripe == 0`; since `end` is emitted only inside `unref` (after a
completed stripe, when `processedStripe` reaches `nStripe`, which a counter
starting at 0 and only incremented can never meet when `nStripe == 0`) and
the empty input lanes never fill a stripe, no event sequence ever emits
end-of-stream on any output or submits a stripe, for the decode, encode and
repair drivers alike: an operation on an empty object never completes. -/
theorem emptyObjectNeverCompletes
    (dataStreams parityStreams istreams ostreams : List (Option (List Nat)))
    (k m hint : Nat) (evs : List Ev) (hdk : 0 < dataStreams.length)
    (hdk24 : dataStreams.length ≤ 24) (hdm6 : parityStreams.length ≤ 6)
    (hh : 0 < hint)
    (hempty : ∀ s ∈ dataStreams ++ parityStreams, s.getD [] = ([] : List Nat))
    (hk : 0 < k) (hk24 : k ≤ 24) (hm6 : m ≤ 6)
    (hemptyR : ∀ s ∈ istreams, s.getD [] = ([] : List Nat)) :
    ((mkDecodeCtx dataStreams parityStreams 0 hint).nStripe = 0 ∧
     (∀ l, Act.endEvt l ∉
       (run (mkDecodeCtx dataStreams parityStreams 0 hint) evs).2) ∧
     Act.submit ∉ (run (mkDecodeCtx dataStreams parityStreams 0 hint) evs).2) ∧
    ((mkEncodeCtx [] k m 0 hint).nStripe = 0 ∧
     (∀ l, Act.endEvt l ∉ (run (mkEncodeCtx [] k m 0 hint) evs).2) ∧
     Act.submit ∉ (run (mkEncodeCtx [] k m 0 hint) evs).2) ∧
    ((mkRepairCtx k m istreams ostreams 0 hint).nStripe = 0 ∧
     (∀ l, Act.endEvt l ∉
       (run (mkRepairCtx k m istreams ostreams 0 hint) evs).2) ∧
     Act.submit ∉ (run (mkRepairCtx k m istreams ostreams 0 hint) evs).2) := by
  refine ⟨?_, ?_, ?_⟩
  · have hS : 0 < safeStripeSize dataStreams.length parityStreams.length hint :=
      safeStripeSize_pos hdk hdk24 hdm6 hh
    have hN : (mkDecodeCtx dataStreams parityStreams 0 hint).nStripe = 0 := by
      show nStripe 0 dataStreams.length
        (safeStripeSize dataStreams.length parityStreams.length hint) = 0
      unfold nStripe
      exact ceilDiv_eq_zero (by positivity)
    have hlanes : ∀ l ∈ (mkDecodeCtx dataStreams parityStreams 0 hint).lanes,
        l = [] := by
      intro l hlmem
      have hmem2 : l ∈ (dataStreams ++ parityStreams).map (fun s => s.getD []) :=
        hlmem
      rw [List.mem_map] at hmem2
      obtain ⟨s, hs, hmap⟩ := hmem2
      rw [← hmap]
      exact hempty s hs
    have hrun := run_empty evs (mkDecodeCtx dataStreams parityStreams 0 hint)
      hN hlanes hS hdk
    exact ⟨hN, hrun.1, hrun.2⟩
  · have hS : 0 < safeStripeSize k m hint := safeStripeSize_pos hk hk24 hm6 hh
    have hN : (mkEncodeCtx [] k m 0 hint).nStripe = 0 := by
      show nStripe 0 k (safeStripeSize k m hint) = 0
      unfold nStripe
      exact ceilDiv_eq_zero (by positivity)
    have hlanes : ∀ l ∈ (mkEncodeCtx [] k m 0 hint).lanes, l = [] := by
      intro l hlmem
      have hmem2 : l ∈ [([] : List Nat)] := hlmem
      simpa using hmem2
    have hrun := run_empty evs (mkEncodeCtx [] k m 0 hint) hN hlanes hS hk
    exact ⟨hN, hrun.1, hrun.2⟩
  · have hS : 0 < safeStripeSize k m hint := safeStripeSize_pos hk hk24 hm6 hh
    have hN : (mkRepairCtx k m istreams ostreams 0 hint).nStripe = 0 := by
      show nStripe 0 k (safeStripeSize k m hint) = 0
      unfold nStripe
      exact ceilDiv_eq_zero (by positivity)
    have hlanes : ∀ l ∈ (mkRepairCtx k m istreams ostreams 0 hint).lanes,
        l = [] := by
      intro l hlmem
      have hmem2 : l ∈ istreams.map (fun s => s.getD []) := hlmem
      rw [List.mem_map] at hmem2
      obtain ⟨s, hs, hmap⟩ := hmem2
      rw [← hmap]
      exact hemptyR s hs
    have hrun := run_empty evs (mkRepairCtx k m istreams ostreams 0 hint)
      hN hlanes hS hk
    exact ⟨hN, hrun.1, hrun.2⟩

/-- Witness for C10: zero-byte (2, 1) decode, encode and repair contexts,
driven by a readiness signal on lane 0, an encode readiness at end of
stream, an upstream error, and stray decode and repair completion events. -/
theorem emptyObjectNeverCompletes_witness :
    ((mkDecodeCtx [some [], some []] [some []] 0 8).nStripe = 0 ∧
     (∀ l, Act.endEvt l ∉
       (run (mkDecodeCtx [some [], some []] [some []] 0 8)
         [Ev.readable 0, Ev.encodeReadable true, Ev.upstreamErr 3,
          Ev.done none, Ev.repairDone (some 1)]).2) ∧
     Act.submit ∉ (run (mkDecodeCtx [some [], some []] [some []] 0 8)
       [Ev.readable 0, Ev.encodeReadable true, Ev.upstreamErr 3,
        Ev.done none, Ev.repairDone (some 1)]).2) ∧
    ((mkEncodeCtx [] 2 1 0 8).nStripe = 0 ∧
     (∀ l, Act.endEvt l ∉ (run (mkEncodeCtx [] 2 1 0 8)
       [Ev.readable 0, Ev.encodeReadable true, Ev.upstreamErr 3,
        Ev.done none, Ev.repairDone (some 1)]).2) ∧
     Act.submit ∉ (run (mkEncodeCtx [] 2 1 0 8)
       [Ev.readable 0, Ev.encodeReadable true, Ev.upstreamErr 3,
        Ev.done none, Ev.repairDone (some 1)]).2) ∧
    ((mkRepairCtx 2 1 [some [], none, some []] [none, some [], none] 0 8).nStripe
        = 0 ∧
     (∀ l, Act.endEvt l ∉
       (run (mkRepairCtx 2 1 [some [], none, some []] [none, some [], none] 0 8)
         [Ev.readable 0, Ev.encodeReadable true, Ev.upstreamErr 3,
          Ev.done none, Ev.repairDone (some 1)]).2) ∧
     Act.submit ∉
       (run (mkRepairCtx 2 1 [some [], none, some []] [none, some [], none] 0 8)
         [Ev.readable 0, Ev.encodeReadable true, Ev.upstreamErr 3,
          Ev.done none, Ev.repairDone (some 1)]).2) :=
  emptyObjectNeverCompletes [some [], some []] [some []]
    [some [], none, some []] [none, some [], none] 2 1 8
    [Ev.readable 0, Ev.encodeReadable true, Ev.upstreamErr 3,
     Ev.done none, Ev.repairDone (some 1)]
    (by decide) (by decide) (by decide) (by decide) (by decide)
    (by decide) (by decide) (by decide) (by decide)

-- Per-stripe byte counts of decode (C7).

theorem sum_stripe_lengths (N c size : Nat) (hc : 0 < c) (hle : size ≤ N * c)
    (h0 : N = 0 → size = 0) (hlast : 1 ≤ N → (N - 1) * c < size) :
    ((List.range N).map
      (fun t => if t + 1 = N then min (size - t * c) c else c)).sum = size := by
  cases N with
  | zero => simpa using (h0 rfl).symm
  | succ n =>
    rw [List.range_succ, List.map_append, List.sum_append]
    have hmap : (List.range n).map
        (fun t => if t + 1 = n + 1 then min (size - t * c) c else c)
        = (List.range n).map (fun _ => c) := by
      apply List.map_congr_left
      intro t ht
      rw [List.mem_range] at ht
      rw [if_neg (by omega)]
    rw [hmap]
    have hsum : ((List.range n).map (fun _ => c)).sum = n * c := by
      rw [List.map_const']
      simp [List.sum_replicate, smul_eq_mul]
    have hn : n * c < size := by
      have h1 := hlast (by omega)
      simpa [Nat.succ_sub_one] using h1
    have hsucc : (n + 1) * c = n * c + c := Nat.succ_mul n c
    have hmin : min (size - n * c) c = size - n * c := by
      apply Nat.min_eq_left
      omega
    simp only [List.map_cons, List.map_nil, List.sum_cons, List.sum_nil, hsum,
      if_true, hmin]
    omega

/-- C7.  Each decode stripe except the last pushes exactly `k*S` bytes to
the single output, the last pushes `size - (nStripe - 1) * k * S` (the zero
padding is truncated), and across all stripes exactly `size` bytes are
written. -/
theorem decodeByteCounts_spec (size k S : Nat) (hk : 0 < k) (hS : 0 < S)
    (buf : Nat → List Nat) (hbuf : ∀ t, (buf t).length = k * S) :
    (∀ t, t + 1 < nStripe size k S →
      (decodeStripePush size k S (nStripe size k S) t (buf t)).length
        = k * S) ∧
    (0 < size →
      (decodeStripePush size k S (nStripe size k S) (nStripe size k S - 1)
        (buf (nStripe size k S - 1))).length
        = size - (nStripe size k S - 1) * (k * S)) ∧
    ((List.range (nStripe size k S)).map (fun t =>
      (decodeStripePush size k S (nStripe size k S) t (buf t)).length)).sum
      = size := by
  have hc : 0 < k * S := by positivity
  have hle : size ≤ nStripe size k S * (k * S) := le_ceilDiv_mul hc
  have h0 : nStripe size k S = 0 → size = 0 := by
    intro hN0
    by_contra hsz
    have hpos : 0 < nStripe size k S := by
      apply Nat.div_pos
      · omega
      · omega
    omega
  have hlast : 1 ≤ nStripe size k S →
      (nStripe size k S - 1) * (k * S) < size := by
    intro hN1
    have hsz : 0 < size := by
      by_contra hsz
      have h00 : size = 0 := by omega
      subst h00
      have : nStripe 0 k S = 0 := ceilDiv_eq_zero hc
      omega
    exact ceilDiv_pred_mul_lt hc hsz
  refine ⟨?_, ?_, ?_⟩
  · intro t ht
    simp only [decodeStripePush]
    rw [if_neg (by omega), hbuf t]
  · intro hsz
    have hN1 : 1 ≤ nStripe size k S := by
      by_contra hN0
      have := h0 (by omega)
      omega
    simp only [decodeStripePush]
    rw [if_pos (by omega), List.length_take, hbuf _]
    have hcomm : (nStripe size k S - 1) * S * k
        = (nStripe size k S - 1) * (k * S) := by ring
    rw [hcomm]
    apply Nat.min_eq_left
    have hsub : (nStripe size k S - 1) * (k * S)
        = nStripe size k S * (k * S) - (k * S) := Nat.sub_one_mul _ _
    have hkS : k * S ≤ nStripe size k S * (k * S) :=
      Nat.le_mul_of_pos_left _ hN1
    omega
  · have heq : ∀ t ∈ List.range (nStripe size k S),
        (decodeStripePush size k S (nStripe size k S) t (buf t)).length
          = (if t + 1 = nStripe size k S
             then min (size - t * (k * S)) (k * S) else k * S) := by
      intro t ht
      simp only [decodeStripePush]
      by_cases hT : t + 1 = nStripe size k S
      · rw [if_pos hT, if_pos hT, List.length_take, hbuf t]
        have hcomm : t * S * k = t * (k * S) := by ring
        rw [hcomm]
      · rw [if_neg hT, if_neg hT, hbuf t]
    rw [List.map_congr_left heq]
    exact sum_stripe_lengths (nStripe size k S) (k * S) size hc hle h0 hlast

/-- Witness for C7 at size = 20, k = 2, S = 8 (two stripes, a short last
stripe of 4 bytes). -/
theorem decodeByteCounts_spec_witness :
    (∀ t, t + 1 < nStripe 20 2 8 →
      (decodeStripePush 20 2 8 (nStripe 20 2 8) t
        (List.replicate 16 0)).length = 2 * 8) ∧
    (0 < 20 →
      (decodeStripePush 20 2 8 (nStripe 20 2 8) (nStripe 20 2 8 - 1)
        (List.replicate 16 0)).length
        = 20 - (nStripe 20 2 8 - 1) * (2 * 8)) ∧
    ((List.range (nStripe 20 2 8)).map (fun t =>
      (decodeStripePush 20 2 8 (nStripe 20 2 8) t
        (List.replicate 16 0)).length)).sum = 20 :=
  decodeByteCounts_spec 20 2 8 (by decide) (by decide)
    (fun _ => List.replicate 16 0) (fun _ => rfl)

-- Chunked-list toolkit for the round trip (C1).

theorem flatten_range_drop_take {α : Type} :
    ∀ (N : Nat) (f : Nat → List α) (c t : Nat),
      (∀ u, u < N → (f u).length = c) → t < N →
      ((((List.range N).map f).flatten).drop (t * c)).take c = f t := by
  intro N
  induction N with
  | zero =>
    intro f c t h ht
    exact absurd ht (by omega)
  | succ N ih =>
    intro f c t hlen ht
    rw [List.range_succ_eq_map, List.map_cons, List.flatten_cons,
      List.map_map]
    cases t with
    | zero =>
      rw [Nat.zero_mul, List.drop_zero]
      rw [show c = (f 0).length from (hlen 0 (by omega)).symm]
      exact List.take_left _ _
    | succ t =>
      have h1 : (t + 1) * c = (f 0).length + t * c := by
        rw [hlen 0 (by omega)]
        ring
      rw [h1]
      have h2 : (f 0 ++ ((List.range N).map (f ∘ Nat.succ)).flatten).drop
          ((f 0).length + t * c)
          = (((List.range N).map (f ∘ Nat.succ)).flatten).drop (t * c) := by
        rw [← List.drop_drop]
        rw [List.drop_left]
      rw [h2]
      exact ih (f ∘ Nat.succ) c t (fun u hu => hlen (u + 1) (by omega))
        (by omega)

theorem flatten_chunks {α : Type} :
    ∀ (N c : Nat) (l : List α), l.length = N * c →
      ((List.range N).map (fun t => (l.drop (t * c)).take c)).flatten = l := by
  intro N
  induction N with
  | zero =>
    intro c l hl
    have hnil : l = [] := List.length_eq_zero.mp (by simpa using hl)
    rw [hnil]
    rfl
  | succ N ih =>
    intro c l hl
    rw [List.range_succ_eq_map, List.map_cons, List.flatten_cons,
      List.map_map]
    have hmap : (List.range N).map
        ((fun t => (l.drop (t * c)).take c) ∘ Nat.succ)
        = (List.range N).map (fun t => ((l.drop c).drop (t * c)).take c) := by
      apply List.map_congr_left
      intro t ht
      show (l.drop ((t + 1) * c)).take c = ((l.drop c).drop (t * c)).take c
      rw [List.drop_drop]
      have harith : (t + 1) * c = c + t * c := by ring
      rw [harith]
    rw [hmap, ih c (l.drop c) (by
      rw [List.length_drop, hl]
      have h2 : (N + 1) * c = N * c + c := by ring
      have h3 : Nat.succ N * c = N * c + c := Nat.succ_mul N c
      omega)]
    show (l.drop (0 * c)).take c ++ l.drop c = l
    rw [Nat.zero_mul, List.drop_zero]
    exact List.take_append_drop c l

theorem chunks_truncLast {α : Type} :
    ∀ (N c : Nat) (X : List α), 0 < c → X.length ≤ N * c →
      (N = 0 → X.length = 0) → (1 ≤ N → (N - 1) * c < X.length) →
      ((List.range N).map (fun t =>
        if t + 1 = N then X.drop (t * c)
        else (X.drop (t * c)).take c)).flatten = X := by
  intro N
  induction N with
  | zero =>
    intro c X hc hle h0 hlast
    have hnil : X = [] := List.length_eq_zero.mp (h0 rfl)
    rw [hnil]
    rfl
  | succ N ih =>
    intro c X hc hle h0 hlast
    by_cases hN : N = 0
    · subst hN
      show ((List.range 1).map (fun t =>
        if t + 1 = 1 then X.drop (t * c) else (X.drop (t * c)).take c)).flatten
          = X
      have h1 : List.range 1 = [0] := rfl
      rw [h1, List.map_cons, List.map_nil, List.flatten_cons]
      rw [if_pos rfl]
      rw [Nat.zero_mul, List.drop_zero]
      exact List.append_nil X
    · rw [List.range_succ_eq_map, List.map_cons, List.flatten_cons,
        List.map_map]
      have hmap : (List.range N).map
          ((fun t => if t + 1 = N + 1 then X.drop (t * c)
            else (X.drop (t * c)).take c) ∘ Nat.succ)
          = (List.range N).map (fun t =>
            if t + 1 = N then (X.drop c).drop (t * c)
            else ((X.drop c).drop (t * c)).take c) := by
        apply List.map_congr_left
        intro t ht
        show (if t + 1 + 1 = N + 1 then X.drop ((t + 1) * c)
          else (X.drop ((t + 1) * c)).take c) = _
        have harith : (t + 1) * c = c + t * c := by ring
        by_cases hc2 : t + 1 = N
        · rw [if_pos (by omega), if_pos hc2, harith, ← List.drop_drop]
        · rw [if_neg (by omega), if_neg hc2, harith, ← List.drop_drop]
      rw [hmap]
      have hlen2 : (X.drop c).length ≤ N * c := by
        rw [List.length_drop]
        have h2 : (N + 1) * c = N * c + c := by ring
        omega
      have h0d : N = 0 → (X.drop c).length = 0 := fun h => absurd h hN
      have hlastd : 1 ≤ N → (N - 1) * c < (X.drop c).length := by
        intro hN1
        rw [List.length_drop]
        have hb := hlast (by omega)
        have hg : (N + 1 - 1) * c = N * c := by norm_num
        have hs : (N - 1) * c = N * c - c := Nat.sub_one_mul _ _
        have hcle : c ≤ N * c := Nat.le_mul_of_pos_left c (by omega)
        have hn1 : (N + 1) * c = N * c + c := by ring
        omega
      rw [ih c (X.drop c) hc hlen2 h0d hlastd]
      rw [if_neg (show ¬(0 + 1 = N + 1) by omega)]
      rw [Nat.zero_mul, List.drop_zero]
      exact List.take_append_drop c X

-- Shape of the stripes encode produces.

theorem encodeStripeData_nonlast (X : List Nat) (k S N t : Nat)
    (hne : ¬(t + 1 = N)) (hlen : (t + 1) * (k * S) ≤ X.length) :
    encodeStripeData X k S N t = (X.drop (t * (k * S))).take (k * S) := by
  simp only [encodeStripeData]
  rw [if_neg hne]
  have hfull : ((X.drop (t * (k * S))).take (k * S)).length = k * S := by
    rw [List.length_take, List.length_drop]
    have h2 : (t + 1) * (k * S) = t * (k * S) + k * S := by ring
    omega
  rw [if_neg (by omega)]

theorem encodeStripeData_last (X : List Nat) (k S N t : Nat)
    (heq : t + 1 = N) (hge : t * (k * S) ≤ X.length) :
    encodeStripeData X k S N t
      = X.drop (t * (k * S))
        ++ List.replicate (k * S - (X.length - t * (k * S))) 0 := by
  simp only [encodeStripeData]
  rw [if_pos heq]
  have htake : (X.drop (t * (k * S))).take (X.length - t * (k * S))
      = X.drop (t * (k * S)) := by
    apply List.take_of_length_le
    rw [List.length_drop]
  rw [htake]
  by_cases hlt : (X.drop (t * (k * S))).length < k * S
  · rw [if_pos hlt, List.length_drop]
  · rw [if_neg hlt]
    have h0 : k * S - (X.length - t * (k * S)) = 0 := by
      rw [List.length_drop] at hlt
      omega
    rw [h0]
    exact (List.append_nil _).symm

theorem nStripe_pos_of_lt {X : List Nat} {k S t : Nat} (hc : 0 < k * S)
    (ht : t < nStripe X.length k S) : 0 < X.length := by
  by_contra h
  have hx : X.length = 0 := by omega
  have hz : nStripe X.length k S = 0 := by
    rw [hx]
    exact ceilDiv_eq_zero hc
  omega

theorem encodeStripeData_length (X : List Nat) (k S t : Nat) (hc : 0 < k * S)
    (ht : t < nStripe X.length k S) :
    (encodeStripeData X k S (nStripe X.length k S) t).length = k * S := by
  have hle : X.length ≤ nStripe X.length k S * (k * S) := le_ceilDiv_mul hc
  have hpos : 0 < X.length := nStripe_pos_of_lt hc ht
  have hpred : (nStripe X.length k S - 1) * (k * S) < X.length :=
    ceilDiv_pred_mul_lt hc hpos
  by_cases hlast : t + 1 = nStripe X.length k S
  · have hge : t * (k * S) ≤ X.length := by
      have h1 : t = nStripe X.length k S - 1 := by omega
      rw [h1]
      omega
    rw [encodeStripeData_last X k S _ t hlast hge]
    rw [List.length_append, List.length_drop, List.length_replicate]
    have h2 : (t + 1) * (k * S) = t * (k * S) + k * S := by ring
    have h3 : nStripe X.length k S * (k * S) = (t + 1) * (k * S) := by
      rw [hlast]
    omega
  · have hlt : (t + 1) * (k * S) ≤ X.length := by
      have h1 : t + 1 ≤ nStripe X.length k S - 1 := by omega
      have h2 : (t + 1) * (k * S) ≤ (nStripe X.length k S - 1) * (k * S) :=
        Nat.mul_le_mul_right _ h1
      omega
    rw [encodeStripeData_nonlast X k S _ t hlast hlt]
    rw [List.length_take, List.length_drop]
    have h2 : (t + 1) * (k * S) = t * (k * S) + k * S := by ring
    omega

-- Decode with every lane present: roles and stripe reassembly.

theorem two_pow_sub_one_and_ne_zero {i k : Nat} (h : i < k) :
    ¬((2 ^ k - 1) &&& (1 <<< i) = 0) := by
  intro h0
  have hbit := congrArg (fun n => Nat.testBit n i) h0
  simp only [Nat.testBit_and, Nat.zero_testBit] at hbit
  rw [Nat.one_shiftLeft, Nat.testBit_two_pow_sub_one,
    Nat.testBit_two_pow_self] at hbit
  simp [h] at hbit

theorem decodeDataLoop_allTrue (k : Nat) :
    ∀ (n j : Nat), j + n = k → 0 < n →
      decodeDataLoop k (List.replicate n true) j ⟨2 ^ j - 1, 0, j⟩
        = ⟨2 ^ k - 1, 0, k⟩ := by
  intro n
  induction n with
  | zero =>
    intro j hj hn
    omega
  | succ n ih =>
    intro j hj hn
    rw [List.replicate_succ, decodeDataLoop, if_pos rfl]
    have hsrc : (2 ^ j - 1) ||| (1 <<< j) = 2 ^ (j + 1) - 1 := by
      have hp : 0 < 2 ^ j := Nat.two_pow_pos j
      rw [or_one_shiftLeft_eq_add (by omega)]
      have h2 : 2 ^ (j + 1) = 2 * 2 ^ j := by ring
      omega
    by_cases hjk : j + 1 = k
    · rw [if_pos hjk]
      show (⟨(2 ^ j - 1) ||| (1 <<< j), 0, j + 1⟩ : Roles) = ⟨2 ^ k - 1, 0, k⟩
      rw [hsrc, hjk]
    · rw [if_neg hjk]
      show decodeDataLoop k (List.replicate n true) (j + 1)
        ⟨(2 ^ j - 1) ||| (1 <<< j), 0, j + 1⟩ = ⟨2 ^ k - 1, 0, k⟩
      rw [hsrc]
      exact ih (j + 1) (by omega) (by omega)

theorem getPartRoles_allTrue (k m : Nat) (hk : 0 < k) :
    getPartRoles (List.replicate k true) (List.replicate m true)
      = ⟨2 ^ k - 1, 0, k⟩ := by
  rw [getPartRoles_eq]
  simp only [List.length_replicate]
  have h0 : (⟨0, 0, 0⟩ : Roles) = ⟨2 ^ 0 - 1, 0, 0⟩ := by norm_num
  rw [h0, decodeDataLoop_allTrue k k 0 (by omega) hk]
  rw [if_neg (show ¬((⟨2 ^ k - 1, 0, k⟩ : Roles).available < k) by
    show ¬(k < k)
    omega)]

theorem map_const_true {α : Type} (l : List α) :
    l.map (fun _ => true) = List.replicate l.length true := by
  induction l with
  | nil => rfl
  | cons a t ih => simp [ih, List.replicate_succ]

theorem encodeLane_slice (gf : List Nat → List Nat) (X : List Nat)
    (k S i t : Nat) (hc : 0 < k * S) (hik : i < k)
    (ht : t < nStripe X.length k S) :
    ((encodeLane gf X k S i).drop (t * S)).take S
      = ((encodeStripeData X k S (nStripe X.length k S) t).drop
          (i * S)).take S := by
  have hfun : encodeLane gf X k S i
      = ((List.range (nStripe X.length k S)).map (fun u =>
          ((encodeStripeData X k S (nStripe X.length k S) u).drop
            (i * S)).take S)).flatten := by
    simp only [encodeLane]
    congr 1
    apply List.map_congr_left
    intro u hu
    rw [if_pos hik]
  rw [hfun]
  apply flatten_range_drop_take
  · intro u hu
    rw [List.length_take, List.length_drop,
      encodeStripeData_length X k S u hc hu]
    have h2 : (i + 1) * S ≤ k * S := Nat.mul_le_mul_right S (by omega)
    have h3 : (i + 1) * S = i * S + S := by ring
    omega
  · exact ht

theorem decodeStripeDataBuffer_encode (gf : List Nat → List Nat) (X : List Nat)
    (k S t : Nat) (ps : List (Option (List Nat))) (hk : 0 < k) (hS : 0 < S)
    (ht : t < nStripe X.length k S) :
    decodeStripeDataBuffer (2 ^ k - 1)
      (((List.range k).map (fun i => some (encodeLane gf X k S i))) ++ ps)
      k S t = encodeStripeData X k S (nStripe X.length k S) t := by
  have hc : 0 < k * S := by positivity
  simp only [decodeStripeDataBuffer]
  have hmap : (List.range k).map (fun i =>
      if (2 ^ k - 1) &&& (1 <<< i) ≠ 0 then
        (((((List.range k).map (fun i => some (encodeLane gf X k S i)))
          ++ ps).getD i none).getD []).drop (t * S) |>.take S
      else List.replicate S 0)
      = (List.range k).map (fun i =>
          ((encodeStripeData X k S (nStripe X.length k S) t).drop
            (i * S)).take S) := by
    apply List.map_congr_left
    intro i hi
    rw [List.mem_range] at hi
    rw [if_pos (two_pow_sub_one_and_ne_zero hi)]
    have hgetD : ((((List.range k).map (fun i =>
        some (encodeLane gf X k S i))) ++ ps).getD i none)
        = some (encodeLane gf X k S i) := by
      rw [List.getD_append _ _ _ _ (by simpa using hi)]
      rw [List.getD_eq_getElem _ _ (by simpa using hi)]
      simp
    rw [hgetD]
    exact encodeLane_slice gf X k S i t hc hi ht
  rw [hmap]
  exact flatten_chunks k S _ (encodeStripeData_length X k S t hc ht)

theorem stripePush_encode (X : List Nat) (k S t : Nat) (hc : 0 < k * S)
    (ht : t < nStripe X.length k S) :
    decodeStripePush X.length k S (nStripe X.length k S) t
      (encodeStripeData X k S (nStripe X.length k S) t)
      = if t + 1 = nStripe X.length k S then X.drop (t * (k * S))
        else (X.drop (t * (k * S))).take (k * S) := by
  have hle : X.length ≤ nStripe X.length k S * (k * S) := le_ceilDiv_mul hc
  have hpos : 0 < X.length := nStripe_pos_of_lt hc ht
  have hpred : (nStripe X.length k S - 1) * (k * S) < X.length :=
    ceilDiv_pred_mul_lt hc hpos
  by_cases hlast : t + 1 = nStripe X.length k S
  · rw [if_pos hlast]
    simp only [decodeStripePush]
    rw [if_pos hlast]
    have hge : t * (k * S) ≤ X.length := by
      have h1 : t = nStripe X.length k S - 1 := by omega
      rw [h1]
      omega
    rw [encodeStripeData_last X k S _ t hlast hge]
    have harg : X.length - t * S * k = (X.drop (t * (k * S))).length := by
      rw [List.length_drop]
      have h2 : t * S * k = t * (k * S) := by ring
      rw [h2]
    rw [harg]
    exact List.take_left _ _
  · rw [if_neg hlast]
    simp only [decodeStripePush]
    rw [if_neg hlast]
    have hlt : (t + 1) * (k * S) ≤ X.length := by
      have h1 : t + 1 ≤ nStripe X.length k S - 1 := by omega
      have h2 : (t + 1) * (k * S) ≤ (nStripe X.length k S - 1) * (k * S) :=
        Nat.mul_le_mul_right _ h1
      omega
    exact encodeStripeData_nonlast X k S _ t hlast hlt

/-- C1.  Round trip: for every valid (k, m) in the supported range, every
stripe-size hint and every byte sequence X of known size (including sizes
that are not a multiple of k*S and sizes shorter than one stripe), feeding
the k data and m parity streams produced by encode into decode writes
exactly X to the decode output.  The Galois-field primitive is a free
parameter on both sides: with all data lanes present decode selects the k
data lanes as sources, `targets == 0`, and the primitive is bypassed. -/
theorem roundTrip_spec (gf : List Nat → List Nat)
    (gfRec : Nat → Nat → List Nat → List Nat → List Nat)
    (k m hint : Nat) (X : List Nat) (hk : 0 < k) (hk24 : k ≤ 24)
    (hm : 0 < m) (hm6 : m ≤ 6) (hh : 0 < hint) :
    ecDecode gfRec X.length
      (((ecEncode gf X k m hint).take k).map some)
      (((ecEncode gf X k m hint).drop k).map some) hint = Except.ok X := by
  have hS : 0 < safeStripeSize k m hint := safeStripeSize_pos hk hk24 hm6 hh
  have hc : 0 < k * safeStripeSize k m hint := by positivity
  have henc : ecEncode gf X k m hint
      = (List.range k).map (encodeLane gf X k (safeStripeSize k m hint))
        ++ (List.range m).map
          (fun j => encodeLane gf X k (safeStripeSize k m hint) (k + j)) := by
    simp only [ecEncode]
    rw [List.range_add, List.map_append, List.map_map]
    rfl
  have htake : ((ecEncode gf X k m hint).take k).map some
      = (List.range k).map
        (fun i => some (encodeLane gf X k (safeStripeSize k m hint) i)) := by
    rw [henc, List.take_left' (by simp), List.map_map]
    rfl
  have hdrop : ((ecEncode gf X k m hint).drop k).map some
      = (List.range m).map
        (fun j => some (encodeLane gf X k (safeStripeSize k m hint) (k + j))) := by
    rw [henc, List.drop_left' (by simp), List.map_map]
    rfl
  rw [htake, hdrop]
  simp only [ecDecode]
  have hds : ((List.range k).map
      (fun i => some (encodeLane gf X k (safeStripeSize k m hint) i))).map
        Option.isSome = List.replicate k true := by
    rw [List.map_map]
    show (List.range k).map (fun _ => true) = _
    rw [map_const_true, List.length_range]
  have hps : ((List.range m).map
      (fun j => some (encodeLane gf X k (safeStripeSize k m hint) (k + j)))).map
        Option.isSome = List.replicate m true := by
    rw [List.map_map]
    show (List.range m).map (fun _ => true) = _
    rw [map_const_true, List.length_range]
  rw [hds, hps, getPartRoles_allTrue k m hk]
  simp only [List.length_map, List.length_range]
  rw [if_neg (show ¬((⟨2 ^ k - 1, 0, k⟩ : Roles).available < k) by
    show ¬(k < k)
    omega)]
  congr 1
  have hper : ∀ t ∈ List.range
      (nStripe X.length k (safeStripeSize k m hint)),
      decodeStripePush X.length k (safeStripeSize k m hint)
        (nStripe X.length k (safeStripeSize k m hint)) t
        (if True then
          decodeStripeDataBuffer (2 ^ k - 1)
            ((List.range k).map
                (fun i => some (encodeLane gf X k (safeStripeSize k m hint) i))
              ++ (List.range m).map
                (fun j => some (encodeLane gf X k (safeStripeSize k m hint)
                  (k + j))))
            k (safeStripeSize k m hint) t
        else
          gfRec (2 ^ k - 1) 0
            (decodeStripeDataBuffer (2 ^ k - 1)
              ((List.range k).map
                  (fun i => some (encodeLane gf X k (safeStripeSize k m hint) i))
                ++ (List.range m).map
                  (fun j => some (encodeLane gf X k (safeStripeSize k m hint)
                    (k + j))))
              k (safeStripeSize k m hint) t)
            (decodeStripeParityBuffer (2 ^ k - 1)
              ((List.range k).map
                  (fun i => some (encodeLane gf X k (safeStripeSize k m hint) i))
                ++ (List.range m).map
                  (fun j => some (encodeLane gf X k (safeStripeSize k m hint)
                    (k + j))))
              k m (safeStripeSize k m hint) t))
      = (if t + 1 = nStripe X.length k (safeStripeSize k m hint)
         then X.drop (t * (k * safeStripeSize k m hint))
         else (X.drop (t * (k * safeStripeSize k m hint))).take
           (k * safeStripeSize k m hint)) := by
    intro t ht
    rw [List.mem_range] at ht
    rw [if_pos trivial]
    rw [decodeStripeDataBuffer_encode gf X k (safeStripeSize k m hint) t _
      hk hS ht]
    exact stripePush_encode X k (safeStripeSize k m hint) t hc ht
  rw [List.map_congr_left hper]
  have hle : X.length ≤ nStripe X.length k (safeStripeSize k m hint)
      * (k * safeStripeSize k m hint) := le_ceilDiv_mul hc
  have h0 : nStripe X.length k (safeStripeSize k m hint) = 0 →
      X.length = 0 := by
    intro hN0
    by_contra hsz
    have hpos : 0 < nStripe X.length k (safeStripeSize k m hint) := by
      apply Nat.div_pos
      · omega
      · omega
    omega
  have hlast : 1 ≤ nStripe X.length k (safeStripeSize k m hint) →
      (nStripe X.length k (safeStripeSize k m hint) - 1)
        * (k * safeStripeSize k m hint) < X.length := by
    intro hN1
    have hpos : 0 < X.length := by
      by_contra hsz
      have hx : X.length = 0 := by omega
      have hz : nStripe X.length k (safeStripeSize k m hint) = 0 := by
        rw [hx]
        exact ceilDiv_eq_zero hc
      omega
    exact ceilDiv_pred_mul_lt hc hpos
  exact chunks_truncLast _ _ X hc hle h0 hlast


/-- Witness for C1 at k = 2, m = 1, hint = 8, X = [1,2,3,4,5] (5 bytes,
shorter than the 16-byte stripe). -/
theorem roundTrip_spec_witness :
    ecDecode (fun _ _ d _ => d) ([1, 2, 3, 4, 5] : List Nat).length
      (((ecEncode (fun _ => List.replicate 8 0) [1, 2, 3, 4, 5] 2 1 8).take 2).map
        some)
      (((ecEncode (fun _ => List.replicate 8 0) [1, 2, 3, 4, 5] 2 1 8).drop 2).map
        some) 8
      = Except.ok [1, 2, 3, 4, 5] :=
  roundTrip_spec (fun _ => List.replicate 8 0) (fun _ _ d _ => d) 2 1 8
    [1, 2, 3, 4, 5] (by decide) (by decide) (by decide) (by decide) (by decide)

end Ecstream
